import Mathlib

/-!
Verification development for the whova agenda import/lookup tool.

The Python sources (`utils.py`, `db_table.py`, `models.py`, `constants.py`,
`import_agenda.py`, `lookup_agenda.py`) are embedded shallowly below:
strings are `List Char`, Python values are a tagged type `PyVal`, the
SQLite store is an explicit state, and the pipelines are pure functions
threading that state.  Fallible operations return `Except`.
-/

namespace Whova

/-- Characters of a Lean string literal; used to write concrete Python strings. -/
def strChars (s : String) : List Char := s.data

/-- The apostrophe character (ASCII 39). -/
def quoteChar : Char := Char.ofNat 39

/-- ASCII whitespace stripped by Python `str.strip` (space, TAB, LF, VT, FF, CR). -/
def isSpaceChar (c : Char) : Bool :=
  c == ' ' || c == '\t' || c == '\n' || c == Char.ofNat 11 || c == Char.ofNat 12 || c == '\r'

/-- Python `str.strip()`: remove leading and trailing whitespace. -/
def pyStrip (s : List Char) : List Char :=
  ((s.dropWhile isSpaceChar).reverse.dropWhile isSpaceChar).reverse

/-- Python `s.replace("'", "''")` (left-to-right scan; the single-character
pattern makes it character-wise), as used by `utils.preprocess_value`. -/
def pyDouble : List Char → List Char
  | [] => []
  | c :: t =>
    if c == quoteChar then quoteChar :: quoteChar :: pyDouble t else c :: pyDouble t

/-- Python `s.replace("''", "'")`: scan left to right replacing
non-overlapping doubled-apostrophe pairs, as used by
`utils.postprocess_value` (and by the SQLite parser when it reads a quoted
string literal back). -/
def pyUndouble : List Char → List Char
  | [] => []
  | [c] => [c]
  | c :: c2 :: t =>
    if c == quoteChar && c2 == quoteChar then quoteChar :: pyUndouble t
    else c :: pyUndouble (c2 :: t)

/-- A Python value as it appears in spreadsheet rows and query payloads: a
string, an integer (Python `int` / `numpy.int64`), or the absent marker
(`None` / `NaN`). -/
inductive PyVal where
  | vstr : List Char → PyVal
  | vint : Int → PyVal
  | vnone : PyVal
deriving DecidableEq, Repr

/-- Model of `utils.preprocess_value`: on strings, double each apostrophe and strip
leading/trailing whitespace (`str(value).replace("'", "''").strip()`);
other values pass through unchanged. -/
def preprocess_value : PyVal → PyVal
  | .vstr s => .vstr (pyStrip (pyDouble s))
  | v => v

/-- Model of `utils.postprocess_value`: on strings, replace each doubled apostrophe
by a single apostrophe (`value.replace("''", "'")`); other values pass
through unchanged. -/
def postprocess_value : PyVal → PyVal
  | .vstr s => .vstr (pyUndouble s)
  | v => v

/-- Does the string contain two adjacent apostrophes? -/
def hasDoubledQuote : List Char → Bool
  | [] => false
  | [_] => false
  | a :: b :: t => (a == quoteChar && b == quoteChar) || hasDoubledQuote (b :: t)

/-! ### Codec lemmas -/

/-- Doubling seen as a character-wise expansion. -/
def doubleChar (c : Char) : List Char :=
  if c == quoteChar then [quoteChar, quoteChar] else [c]

/-- Character-wise concatenation map (kept explicit for easy induction). -/
def concatMap (f : α → List β) : List α → List β
  | [] => []
  | a :: t => f a ++ concatMap f t

/-! ### Database cells and value storage

`db_table.insert` and the WHERE clauses of `db_table.select`/`update` render
every payload value as a quoted SQL literal via Python
`"'%s'" % preprocess_value(v)`.  SQLite parses the literal back (un-escaping
each doubled apostrophe, i.e. `pyUndouble`) and applies the destination
column's type affinity.  Note that Python renders the absent value `None` as
the four characters `None`, so an unset id inserted into an INTEGER column is
stored as the TEXT value `None`, not as SQL NULL. -/

/-- A value as stored in an SQLite cell. -/
inductive Cell where
  | ctext : List Char → Cell
  | cint : Int → Cell
  | cnull : Cell
deriving DecidableEq, Repr

/-- Strict decimal integer parse, modelling SQLite's TEXT→INTEGER affinity
conversion on the canonical decimal strings this program produces (the only
non-numeric text it ever sends to an INTEGER column is `None`, which fails
to convert and is kept as TEXT). -/
def parseIntText (s : List Char) : Option Int :=
  match s with
  | [] => none
  | '-' :: t => if t ≠ [] && t.all Char.isDigit
      then some (-(Int.ofNat (t.foldl (fun a c => 10 * a + (c.toNat - 48)) 0)))
      else none
  | _ => if s.all Char.isDigit
      then some (Int.ofNat (s.foldl (fun a c => 10 * a + (c.toNat - 48)) 0))
      else none

/-- Apply INTEGER column affinity to a textual value. -/
def intAffinity (t : List Char) : Cell :=
  match parseIntText t with
  | some n => .cint n
  | none => .ctext t

/-- The cell stored for payload value `v` in a column (`intCol` = the column
has INTEGER affinity): `preprocess_value`, then Python `"'%s'" %` rendering,
then SQLite literal parsing, then affinity.  For an integer value the decimal
rendering converts back to the same integer under INTEGER affinity. -/
def storedCell (intCol : Bool) (v : PyVal) : Cell :=
  match preprocess_value v with
  | .vstr s => if intCol then intAffinity (pyUndouble s) else .ctext (pyUndouble s)
  | .vint n => if intCol then .cint n else .ctext (strChars (toString n))
  | .vnone => if intCol then intAffinity (strChars "None") else .ctext (strChars "None")

/-- The text a value contributes to a quoted WHERE-clause literal, as SQLite
reads it back (same chain as `storedCell`, before affinity). -/
def storedText (v : PyVal) : List Char :=
  match preprocess_value v with
  | .vstr s => pyUndouble s
  | .vint n => strChars (toString n)
  | .vnone => strChars "None"

/-! ### The three tables (models.py schemas) -/

/-- One row of the `sessions` table; `id` is the AUTOINCREMENT surrogate key
assigned by the engine. -/
structure SessionRow where
  id : Int
  date : Cell
  time_start : Cell
  time_end : Cell
  title : Cell
  location : Cell
  description : Cell
  supersession_id : Cell
deriving DecidableEq, Repr

structure SessionsTable where
  rows : List SessionRow
  nextId : Int
deriving DecidableEq, Repr

/-- The insert payload built by `process_session_data`: the dict holds only
the keys present (non-NaN), plus `supersession_id` when the row is a "Sub". -/
structure SessionData where
  date : Option PyVal
  time_start : Option PyVal
  time_end : Option PyVal
  title : Option PyVal
  location : Option PyVal
  description : Option PyVal
  supersession_id : Option PyVal
deriving DecidableEq, Repr

/-- A column absent from the INSERT statement defaults to NULL. -/
def cellOfOpt (intCol : Bool) : Option PyVal → Cell
  | none => .cnull
  | some v => storedCell intCol v

/-- Model of `db_table.insert` on `sessions`: no enforceable constraint can fail here
(the declared FOREIGN KEY is not enforced — SQLite foreign-key enforcement
is off by default and the program never issues `PRAGMA foreign_keys = ON`),
and `cursor.lastrowid` is the fresh AUTOINCREMENT id. -/
def sessionsInsert (t : SessionsTable) (d : SessionData) : Int × SessionsTable :=
  (t.nextId,
   { rows := t.rows ++ [{ id := t.nextId
                        , date := cellOfOpt false d.date
                        , time_start := cellOfOpt false d.time_start
                        , time_end := cellOfOpt false d.time_end
                        , title := cellOfOpt false d.title
                        , location := cellOfOpt false d.location
                        , description := cellOfOpt false d.description
                        , supersession_id := cellOfOpt true d.supersession_id }]
   , nextId := t.nextId + 1 })

/-- One row of the `speakers` table (`name` is declared UNIQUE). -/
structure SpeakerRow where
  id : Int
  name : Cell
deriving DecidableEq, Repr

structure SpeakersTable where
  rows : List SpeakerRow
  nextId : Int
deriving DecidableEq, Repr

def uniqueNameMsg : List Char := strChars "UNIQUE constraint failed: speakers.name"

/-- Model of `db_table.insert` on `speakers`: the UNIQUE constraint on `name` is
enforced by SQLite and surfaces as an error. -/
def speakersInsert (t : SpeakersTable) (v : PyVal) :
    Except (List Char) (Int × SpeakersTable) :=
  if t.rows.any (fun s => s.name == storedCell false v) then .error uniqueNameMsg
  else .ok (t.nextId,
    { rows := t.rows ++ [{ id := t.nextId, name := storedCell false v }]
    , nextId := t.nextId + 1 })

/-- Model of the select `speakers_table.select(columns=["id"], where={"name": v})`. -/
def speakersSelectIdsByName (t : SpeakersTable) (v : PyVal) : List Int :=
  (t.rows.filter (fun s => s.name == Cell.ctext (storedText v))).map (fun s => s.id)

/-- One row of the `sessions_speakers` association table. -/
structure AssocRow where
  session_id : Cell
  speaker_id : Cell
deriving DecidableEq, Repr

structure AssocTable where
  rows : List AssocRow
  nextRowid : Int
deriving DecidableEq, Repr

def pkViolationMsg : List Char :=
  strChars "UNIQUE constraint failed: sessions_speakers.session_id, sessions_speakers.speaker_id"

/-- Model of `db_table.insert` on `sessions_speakers`.  The composite PRIMARY KEY
(session_id, speaker_id) is enforced by SQLite; the two declared FOREIGN KEY
constraints are NOT enforced (SQLite keeps foreign-key enforcement off unless
`PRAGMA foreign_keys = ON` is issued per connection, which this program never
does), so the insert consults no other table and dangling references are
accepted silently. -/
def assocInsert (t : AssocTable) (sid spid : PyVal) :
    Except (List Char) (Int × AssocTable) :=
  if t.rows.any (fun a => a.session_id == storedCell true sid
      && a.speaker_id == storedCell true spid) then .error pkViolationMsg
  else .ok (t.nextRowid,
    { rows := t.rows ++ [{ session_id := storedCell true sid
                         , speaker_id := storedCell true spid }]
    , nextRowid := t.nextRowid + 1 })

/-! ### Import pipeline (import_agenda.py) -/

/-- One parsed spreadsheet row, keyed by `EXCEL_COLUMNS`. -/
structure InputRow where
  date : PyVal
  time_start : PyVal
  time_end : PyVal
  session_type : PyVal
  title : PyVal
  location : PyVal
  description : PyVal
  speakers : PyVal
deriving DecidableEq, Repr

/-- The `pd.notna` filter used when building the session payload. -/
def notnaOpt (v : PyVal) : Option PyVal := if v = .vnone then none else some v

/-- The payload dict `{key: row[key] for key in SESSIONS_COLUMNS if pd.notna(row[key])}`. -/
def mkSessionData (r : InputRow) : SessionData :=
  { date := notnaOpt r.date
  , time_start := notnaOpt r.time_start
  , time_end := notnaOpt r.time_end
  , title := notnaOpt r.title
  , location := notnaOpt r.location
  , description := notnaOpt r.description
  , supersession_id := none }

def sessionTypeStr : List Char := strChars "Session"

def subTypeStr : List Char := strChars "Sub"

/-- The row loop of `process_session_data`, threading `last_session_id`
(Python `None` initially, hence `PyVal`). -/
def processSessionsAux (last : PyVal) (t : SessionsTable) :
    List InputRow → List Int × SessionsTable
  | [] => ([], t)
  | r :: rest =>
    let d0 := mkSessionData r
    let d := if r.session_type = .vstr subTypeStr
             then { d0 with supersession_id := some last } else d0
    let p := sessionsInsert t d
    let last1 := if r.session_type = .vstr sessionTypeStr then .vint p.1 else last
    let q := processSessionsAux last1 p.2 rest
    (p.1 :: q.1, q.2)

/-- Model of `process_session_data`: insert each row into `sessions`, linking a "Sub"
row to the tracked `last_session_id`, and return the ids in row order. -/
def process_session_data (rows : List InputRow) (t : SessionsTable) :
    List Int × SessionsTable :=
  processSessionsAux .vnone t rows

/-- Python `s.split(";")` (keeps empty pieces). -/
def splitSemi : List Char → List (List Char)
  | [] => [[]]
  | c :: t =>
    match splitSemi t with
    | [] => [[]]
    | h :: hs => if c = ';' then [] :: h :: hs else (c :: h) :: hs

/-- The trimmed names `[u.strip() for u in str(speakers).split(";")]`; the `.vnone` case is
unreachable behind the `pd.isna` guard. -/
def trimmedNames : PyVal → List (List Char)
  | .vstr s => (splitSemi s).map pyStrip
  | .vint n => (splitSemi (strChars (toString n))).map pyStrip
  | .vnone => []

/-- The trimmed speaker names contributed by one input row (empty when the
`speakers` field is NaN and the row is skipped). -/
def rowNames (r : InputRow) : List (List Char) := trimmedNames r.speakers

/-- The in-process `speaker_ids` dict (later writes shadow earlier ones). -/
def SpeakerDict := List (List Char × Int)

def dictSet (d : SpeakerDict) (k : List Char) (v : Int) : SpeakerDict := (k, v) :: d

def dictGet? (d : SpeakerDict) (k : List Char) : Option Int :=
  (List.find? (fun p => p.1 == k) d).map (fun p => p.2)

def emptyDict : SpeakerDict := []

def keyErrorMsg : List Char := strChars "KeyError"

/-- Body of the inner name loop: select the speaker by name; cache the
existing id if found, otherwise insert and cache the fresh id. -/
def resolveName (sp : SpeakersTable) (d : SpeakerDict) (name : List Char) :
    Except (List Char × SpeakersTable × SpeakerDict) (SpeakersTable × SpeakerDict) :=
  match speakersSelectIdsByName sp (.vstr name) with
  | mid :: _ => .ok (sp, dictSet d name mid)
  | [] =>
    match speakersInsert sp (.vstr name) with
    | .ok p => .ok (p.2, dictSet d name p.1)
    | .error e => .error (e, sp, d)

/-- The per-row name loop: record a pending (session id, name) pair and
resolve the name. -/
def speakerRowLoop (sid : Int) (sp : SpeakersTable) (d : SpeakerDict) :
    List (List Char) →
    Except (List Char × SpeakersTable × SpeakerDict)
      (List (Int × List Char) × SpeakersTable × SpeakerDict)
  | [] => .ok ([], sp, d)
  | n :: rest =>
    match resolveName sp d n with
    | .error e => .error e
    | .ok p =>
      match speakerRowLoop sid p.1 p.2 rest with
      | .error e => .error e
      | .ok q => .ok ((sid, n) :: q.1, q.2)

/-- The outer row loop of `process_speaker_data` (phase 1): skip NaN speaker
fields, otherwise split/trim and run the name loop. -/
def speakerScan (sp : SpeakersTable) (d : SpeakerDict) :
    List (Int × PyVal) →
    Except (List Char × SpeakersTable × SpeakerDict)
      (List (Int × List Char) × SpeakersTable × SpeakerDict)
  | [] => .ok ([], sp, d)
  | (sid, spk) :: rest =>
    if spk = .vnone then speakerScan sp d rest
    else
      match speakerRowLoop sid sp d (trimmedNames spk) with
      | .error e => .error e
      | .ok p =>
        match speakerScan p.2.1 p.2.2 rest with
        | .error e => .error e
        | .ok q => .ok (p.1 ++ q.1, q.2)

/-- Phase 2 of `process_speaker_data`: insert one association row per pending
pair, resolving the cached speaker id. -/
def assocLoop (d : SpeakerDict) (t : AssocTable) :
    List (Int × List Char) → Except (List Char × AssocTable) AssocTable
  | [] => .ok t
  | (sid, n) :: rest =>
    match dictGet? d n with
    | none => .error (keyErrorMsg, t)
    | some spid =>
      match assocInsert t (.vint sid) (.vint spid) with
      | .error e => .error (e, t)
      | .ok p => assocLoop d p.2 rest

/-- Model of `process_speaker_data`: collect pending pairs while deduplicating
speakers by name, then populate the association table.  Errors carry the
table states at the point of failure (every insert auto-commits; there is no
rollback). -/
def process_speaker_data (rowsWithIds : List (Int × PyVal))
    (sp : SpeakersTable) (t : AssocTable) :
    Except (List Char × SpeakersTable × AssocTable) (SpeakersTable × AssocTable) :=
  match speakerScan sp emptyDict rowsWithIds with
  | .error e => .error (e.1, e.2.1, t)
  | .ok p =>
    match assocLoop p.2.2 t p.1 with
    | .error e => .error (e.1, p.2.1, e.2)
    | .ok t1 => .ok (p.2.1, t1)

/-- The whole persistent store. -/
structure DB where
  sessions : SessionsTable
  speakers : SpeakersTable
  assoc : AssocTable
deriving DecidableEq, Repr

def emptyDB : DB := ⟨⟨[], 1⟩, ⟨[], 1⟩, ⟨[], 1⟩⟩

/-- The body of `import_agenda.main` after the spreadsheet has been parsed:
sessions first, then speakers and associations.  Errors carry the partially
populated store (committed rows stay committed). -/
def run_import (rows : List InputRow) (db : DB) : Except (List Char × DB) DB :=
  let p := process_session_data rows db.sessions
  match process_speaker_data (p.1.zip (rows.map (fun r => r.speakers)))
      db.speakers db.assoc with
  | .error e => .error (e.1, ⟨p.2, e.2.1, e.2.2⟩)
  | .ok q => .ok ⟨p.2, q.1, q.2⟩

/-- The fixed text prepended by both entry points' catch-all handlers:
`print(f"Error occured: {e}")` — spelled exactly as in the source. -/
def errText : List Char := strChars "Error occured: "

/-- The catch-all boundary shared by both entry points: success prints the
body's output and exits 0; any raised error is printed to standard output
behind `errText` and the process exits with status 1. -/
def catchBoundary (body : Except (List Char) (List (List Char))) :
    List (List Char) × Nat :=
  match body with
  | .ok out => (out, 0)
  | .error e => ([errText ++ e], 1)

/-- Model of `import_agenda.main` (after file parsing): printed lines, exit status,
and the resulting store. -/
def import_main (rows : List InputRow) (db : DB) :
    (List (List Char) × Nat) × DB :=
  match run_import rows db with
  | .ok db1 => (([], 0), db1)
  | .error e => (([errText ++ e.1], 1), e.2)

/-! ### Lookup pipeline (lookup_agenda.py) -/

/-- The allow-listed query columns (`QUERY_COLUMNS`). -/
inductive QueryCol where
  | qdate | qtime_start | qtime_end | qtitle | qlocation | qdescription | qspeaker
deriving DecidableEq, Repr

/-- The sessions cell addressed by a non-speaker query column (`qspeaker` is
handled by the join branch and never reaches the direct filter). -/
def sessionCell (r : SessionRow) : QueryCol → Cell
  | .qdate => r.date
  | .qtime_start => r.time_start
  | .qtime_end => r.time_end
  | .qtitle => r.title
  | .qlocation => r.location
  | .qdescription => r.description
  | .qspeaker => .cnull

/-- SQL equality of a TEXT-affinity column cell against a quoted literal:
TEXT compares to TEXT by content; NULL or an INTEGER cell never equals the
text literal. -/
def eqTextLiteral (c : Cell) (lit : List Char) : Bool :=
  match c with
  | .ctext t => t == lit
  | _ => false

/-- The `postprocess_value` conversion applied to a fetched cell by `db_table.select`. -/
def postCell : Cell → Cell
  | .ctext t => .ctext (pyUndouble t)
  | c => c

/-- A result row of `sessions_table.select` (all columns, postprocessed). -/
def rowPost (r : SessionRow) : SessionRow :=
  { id := r.id
  , date := postCell r.date
  , time_start := postCell r.time_start
  , time_end := postCell r.time_end
  , title := postCell r.title
  , location := postCell r.location
  , description := postCell r.description
  , supersession_id := postCell r.supersession_id }

/-- The chained join sessions↔sessions_speakers↔speakers filtered by speaker
name, used when the query column is `speaker`. -/
def joinSpeakerMatches (t : SessionsTable) (a : AssocTable) (sp : SpeakersTable)
    (v : PyVal) : List SessionRow :=
  concatMap (fun r =>
    concatMap (fun ar =>
      if ar.session_id == Cell.cint r.id
      then (sp.rows.filter (fun s => ar.speaker_id == Cell.cint s.id
              && s.name == Cell.ctext (storedText v))).map (fun _ => r)
      else []) a.rows) t.rows

/-- The primary match of `get_all_matches` (step 1). -/
def primaryMatches (col : QueryCol) (v : PyVal) (t : SessionsTable)
    (a : AssocTable) (sp : SpeakersTable) : List SessionRow :=
  if col = .qspeaker then (joinSpeakerMatches t a sp v).map rowPost
  else (t.rows.filter
    (fun r => eqTextLiteral (sessionCell r col) (storedText v))).map rowPost

def noMatchMsg : List Char := strChars "No matches found for the given query."

/-- Membership of a cell in an unquoted integer IN-list: only an INTEGER
cell can match (the TEXT cell `None` and NULL never do). -/
def inIntList (c : Cell) (ids : List Int) : Bool :=
  match c with
  | .cint n => ids.contains n
  | _ => false

/-- The subsession expansion select:
`where {"supersession_id": ids, "id NOT": ids}` renders as
`supersession_id IN (...) AND id NOT IN (...)`. -/
def subExpansion (t : SessionsTable) (ids : List Int) : List SessionRow :=
  (t.rows.filter
    (fun r => inIntList r.supersession_id ids && !(ids.contains r.id))).map rowPost

/-- Model of `get_all_matches`: primary matches (error when none), then one level of
subsession expansion appended. -/
def get_all_matches (col : QueryCol) (v : PyVal) (t : SessionsTable)
    (a : AssocTable) (sp : SpeakersTable) : Except (List Char) (List SessionRow) :=
  let sessions_match := primaryMatches col v t a sp
  if sessions_match = [] then .error noMatchMsg
  else .ok (sessions_match ++ subExpansion t (sessions_match.map (fun r => r.id)))

/-- Python `str(...)` of a fetched value, as printed. -/
def showCell : Cell → List Char
  | .ctext s => s
  | .cint n => strChars (toString n)
  | .cnull => strChars "None"

/-- Model of `get_speaker_names`: join speakers↔sessions_speakers on the session id. -/
def get_speaker_names (r : SessionRow) (sp : SpeakersTable) (a : AssocTable) :
    List (List Char) :=
  concatMap (fun s =>
    (a.rows.filter (fun ar => ar.speaker_id == Cell.cint s.id
        && ar.session_id == Cell.cint r.id)).map
      (fun _ => showCell (postCell s.name))) sp.rows

/-- The 63-character delimiter line printed around each session block. -/
def delimLine : List Char := List.replicate 63 '='

def joinStrs (sep : List Char) : List (List Char) → List Char
  | [] => []
  | [x] => x
  | x :: y :: xs => x ++ sep ++ joinStrs sep (y :: xs)

/-- Model of `print_session` as the list of printed lines (a `\n` inside an f-string
becomes an extra empty line). -/
def print_session (r : SessionRow) (names : List (List Char)) : List (List Char) :=
  [delimLine]
  ++ [strChars "title: " ++ showCell r.title, []]
  ++ [strChars "date: " ++ showCell r.date, []]
  ++ [strChars "time_start: " ++ showCell r.time_start, []]
  ++ [strChars "time_end: " ++ showCell r.time_end, []]
  ++ [strChars "location: " ++ showCell r.location, []]
  ++ [strChars "description: " ++ showCell r.description, []]
  ++ [strChars "speakers: " ++
        (if names = [] then strChars "None" else joinStrs (strChars "; ") names)]
  ++ [delimLine, []]

/-- The body of `lookup_agenda.main` after argument validation. -/
def lookup_body (col : QueryCol) (v : PyVal) (db : DB) :
    Except (List Char) (List (List Char)) :=
  match get_all_matches col v db.sessions db.assoc db.speakers with
  | .error e => .error e
  | .ok ms =>
    .ok (concatMap (fun r => print_session r (get_speaker_names r db.speakers db.assoc)) ms)

/-- Model of `lookup_agenda.main`: printed lines and exit status. -/
def lookup_main (col : QueryCol) (v : PyVal) (db : DB) : List (List Char) × Nat :=
  catchBoundary (lookup_body col v db)

/-! ### Analysis of the session phase -/

/-- The AUTOINCREMENT ids handed out by `n` consecutive session inserts. -/
def idsFrom (base : Int) : Nat → List Int
  | 0 => []
  | n + 1 => base :: idsFrom (base + 1) n

/-- The session row stored for input row `r` when the tracked
`last_session_id` holds `last` and the fresh id is `base`. -/
def mkStoredRow (r : InputRow) (last : PyVal) (base : Int) : SessionRow :=
  { id := base
  , date := cellOfOpt false (notnaOpt r.date)
  , time_start := cellOfOpt false (notnaOpt r.time_start)
  , time_end := cellOfOpt false (notnaOpt r.time_end)
  , title := cellOfOpt false (notnaOpt r.title)
  , location := cellOfOpt false (notnaOpt r.location)
  , description := cellOfOpt false (notnaOpt r.description)
  , supersession_id :=
      if r.session_type = .vstr subTypeStr then storedCell true last else .cnull }

/-- The block of rows the session phase appends to the table. -/
def newSessionRows (last : PyVal) (base : Int) : List InputRow → List SessionRow
  | [] => []
  | r :: rest =>
    mkStoredRow r last base ::
      newSessionRows (if r.session_type = .vstr sessionTypeStr then .vint base else last)
        (base + 1) rest

/-! ### Sample inputs used by witnesses -/

/-- A row with only the fields a test needs populated. -/
def sampleRow (ty ti spk : PyVal) : InputRow :=
  { date := .vnone, time_start := .vnone, time_end := .vnone
  , session_type := ty, title := ti, location := .vnone, description := .vnone
  , speakers := spk }

def wSessionRow : InputRow :=
  sampleRow (.vstr (strChars "Session")) (.vstr (strChars "Opening")) .vnone

def wBreakRow : InputRow :=
  sampleRow (.vstr (strChars "Break")) .vnone .vnone

def wSubRow : InputRow :=
  sampleRow (.vstr (strChars "Sub")) (.vstr (strChars "Part")) .vnone

def c1Rows : List InputRow := [wSessionRow, wBreakRow, wSubRow]

def c3Rows : List InputRow := [wSubRow]

/-- The stored `supersession_id` cells after importing into an empty store
(`none` when the import aborted). -/
def importedSupersessionCells (rows : List InputRow) : Option (List Cell) :=
  match run_import rows emptyDB with
  | .ok db => some (db.sessions.rows.map SessionRow.supersession_id)
  | .error _ => none

/-- A sample string with leading/trailing whitespace and one apostrophe. -/
def c8Str : List Char := [' ', ' '] ++ [quoteChar] ++ strChars "Ada  "

/-- A populated store for the C7 witness (three imported sessions). -/
def c7DB : DB :=
  match run_import c1Rows emptyDB with
  | .ok db => db
  | .error _ => emptyDB

/-- The store used by the C4 witness: one parent, two children, one
grandchild (nested abuse), one unrelated session. -/
def c4Table : SessionsTable :=
  { rows :=
      [ { id := 1, date := .cnull, time_start := .cnull, time_end := .cnull
        , title := .ctext (strChars "Parent"), location := .cnull
        , description := .cnull, supersession_id := .cnull }
      , { id := 2, date := .cnull, time_start := .cnull, time_end := .cnull
        , title := .ctext (strChars "Child A"), location := .cnull
        , description := .cnull, supersession_id := .cint 1 }
      , { id := 3, date := .cnull, time_start := .cnull, time_end := .cnull
        , title := .ctext (strChars "Child B"), location := .cnull
        , description := .cnull, supersession_id := .cint 1 }
      , { id := 4, date := .cnull, time_start := .cnull, time_end := .cnull
        , title := .ctext (strChars "Grandchild"), location := .cnull
        , description := .cnull, supersession_id := .cint 2 } ]
  , nextId := 5 }

/-- A speakers table already holding the name `Ada`. -/
def adaSpeakers : SpeakersTable :=
  { rows := [{ id := 1, name := .ctext (strChars "Ada") }], nextId := 2 }

/-! ### Analysis of the speaker phase -/

/-- The (session id, speakers field) sequence the speaker phase iterates. -/
def rowsWithIds (b : Int) : List InputRow → List (Int × PyVal)
  | [] => []
  | r :: rest => (b, r.speakers) :: rowsWithIds (b + 1) rest

/-- The trimmed names one scan entry contributes (none when NaN). -/
def entryNames (p : Int × PyVal) : List (List Char) :=
  if p.2 = .vnone then [] else trimmedNames p.2

/-- The pending pairs one scan entry contributes. -/
def entryPairs (p : Int × PyVal) : List (Int × List Char) :=
  (entryNames p).map (fun n => (p.1, n))

/-- All trimmed names, in processing order. -/
def allNames (l : List (Int × PyVal)) : List (List Char) := concatMap entryNames l

/-- All pending pairs, in processing order. -/
def allPairs (l : List (Int × PyVal)) : List (Int × List Char) := concatMap entryPairs l

/-- First-seen accumulation of distinct names. -/
def addSeen (acc : List (List Char)) (n : List Char) : List (List Char) :=
  if n ∈ acc then acc else acc ++ [n]

/-- The speaker rows corresponding to a first-seen name list, ids from `b`. -/
def mkSpRows (b : Int) : List (List Char) → List SpeakerRow
  | [] => []
  | n :: t => { id := b, name := .ctext n } :: mkSpRows (b + 1) t

/-- The id a name received: position of its first occurrence, offset by `b`. -/
def specIdFrom (b : Int) (n : List Char) : List (List Char) → Int
  | [] => 0
  | m :: t => if m = n then b else specIdFrom (b + 1) n t

/-- Invariant tying the scan's speaker table and cache to the first-seen
name list (for a table grown from empty with ids starting at `b`). -/
def StateOK (b : Int) (seen : List (List Char)) (sp : SpeakersTable)
    (d : SpeakerDict) : Prop :=
  seen.Nodup ∧ sp.rows = mkSpRows b seen ∧ sp.nextId = b + seen.length ∧
  ∀ n, dictGet? d n = if n ∈ seen then some (specIdFrom b n seen) else none

/-- The association rows committed before the first repeated row aborts the
loop. -/
def nodupPfxRel (rowsSoFar : List AssocRow) : List AssocRow → List AssocRow
  | [] => []
  | a :: rest => if a ∈ rowsSoFar then [] else a :: nodupPfxRel (rowsSoFar ++ [a]) rest

/-- The association loop after name resolution: insert each row, aborting on
a duplicate of an already present (session_id, speaker_id) pair. -/
def specAssocLoop (t : AssocTable) :
    List AssocRow → Except (List Char × AssocTable) AssocTable
  | [] => .ok t
  | a :: rest =>
    if t.rows.any (fun x => x.session_id == a.session_id
        && x.speaker_id == a.speaker_id)
    then .error (pkViolationMsg, t)
    else specAssocLoop { rows := t.rows ++ [a], nextRowid := t.nextRowid + 1 } rest

/-- The id of the (first) speaker row holding a name. -/
def speakerIdOf (sp : SpeakersTable) (n : List Char) : Int :=
  match (sp.rows.filter (fun s => s.name == Cell.ctext n)).map SpeakerRow.id with
  | i :: _ => i
  | [] => 0

/-- A pending pair resolved through a speakers table. -/
def assocRowOf (sp : SpeakersTable) (p : Int × List Char) : AssocRow :=
  { session_id := .cint p.1, speaker_id := .cint (speakerIdOf sp p.2) }

/-- Occurrence count with explicit decidable equality (kept self-contained to
avoid mixing `BEq` instances). -/
def countEq [DecidableEq α] (a : α) : List α → Nat
  | [] => 0
  | x :: t => (if x = a then 1 else 0) + countEq a t

/-! ### Assembling the speaker phase -/

/-- The distinct names in first-seen order after a full import of `rows`. -/
def seenOf (rows : List InputRow) : List (List Char) :=
  (allNames (rowsWithIds 1 rows)).foldl addSeen []

/-- The id assigned to a speaker name by a full import of `rows`. -/
def sigmaOf (rows : List InputRow) (n : List Char) : Int :=
  specIdFrom 1 n (seenOf rows)

/-- The pending pairs of a full import, resolved to association rows. -/
def resolvedPairs (rows : List InputRow) : List AssocRow :=
  (allPairs (rowsWithIds 1 rows)).map
    (fun p => AssocRow.mk (.cint p.1) (.cint (sigmaOf rows p.2)))

/-- The speakers table a full import of `rows` leaves behind. -/
def finalSpeakers (rows : List InputRow) : SpeakersTable :=
  { rows := mkSpRows 1 (seenOf rows), nextId := 1 + (seenOf rows).length }

/-- Two rows both naming Ada Lovelace (with differing whitespace). -/
def c2RowA : InputRow :=
  sampleRow (.vstr (strChars "Session")) (.vstr (strChars "First"))
    (.vstr (strChars "Ada Lovelace;  Alan Turing "))

def c2RowB : InputRow :=
  sampleRow (.vstr (strChars "Session")) (.vstr (strChars "Second"))
    (.vstr (strChars " Ada Lovelace"))

def c2Rows : List InputRow := [c2RowA, c2RowB]

/-- The store produced by importing `c2Rows` into an empty store. -/
def c2DB : DB :=
  match run_import c2Rows emptyDB with
  | .ok db => db
  | .error _ => emptyDB

/-- A row whose speakers field lists the same trimmed name twice. -/
def c9Row : InputRow :=
  sampleRow (.vstr (strChars "Session")) (.vstr (strChars "S"))
    (.vstr (strChars "Ada; Ada"))

def c9Rows : List InputRow := [c9Row]

theorem concatMap_append (f : α → List β) (l₁ l₂ : List α) :
    concatMap f (l₁ ++ l₂) = concatMap f l₁ ++ concatMap f l₂ := by
  induction l₁ with
  | nil => rfl
  | cons a t ih => simp [concatMap, ih]

theorem pyDouble_eq_concatMap (s : List Char) :
    pyDouble s = concatMap doubleChar s := by
  induction s with
  | nil => rfl
  | cons c t ih =>
    by_cases h : c = quoteChar
    · subst h
      simp [pyDouble, concatMap, doubleChar, ih]
    · simp [pyDouble, concatMap, doubleChar, beq_iff_eq, h, ih]

theorem pyUndouble_concatMap_double (s : List Char) :
    pyUndouble (concatMap doubleChar s) = s := by
  induction s with
  | nil => rfl
  | cons c t ih =>
    by_cases h : c = quoteChar
    · subst h
      have hcm : concatMap doubleChar (quoteChar :: t)
          = quoteChar :: quoteChar :: concatMap doubleChar t := by
        simp [concatMap, doubleChar]
      rw [hcm]
      simp [pyUndouble, ih]
    · have hcm : concatMap doubleChar (c :: t) = c :: concatMap doubleChar t := by
        simp [concatMap, doubleChar, beq_iff_eq, h]
      rw [hcm]
      cases hct : concatMap doubleChar t with
      | nil =>
        simp [pyUndouble]
        exact (hct ▸ ih).symm
      | cons d u =>
        have hb : (c == quoteChar) = false := by simp [beq_iff_eq, h]
        rw [← hct]
        simp [pyUndouble, hct, hb, hct ▸ ih]

theorem isSpace_quote : isSpaceChar quoteChar = false := by decide

theorem dropWhile_concatMap_double (s : List Char) :
    (concatMap doubleChar s).dropWhile isSpaceChar
      = concatMap doubleChar (s.dropWhile isSpaceChar) := by
  induction s with
  | nil => rfl
  | cons c t ih =>
    by_cases h : c = quoteChar
    · subst h
      have hcm : concatMap doubleChar (quoteChar :: t)
          = quoteChar :: quoteChar :: concatMap doubleChar t := by
        simp [concatMap, doubleChar]
      rw [hcm, List.dropWhile_cons_of_neg (by simp [isSpace_quote]),
        List.dropWhile_cons_of_neg (by simp [isSpace_quote]), hcm]
    · have hcm : concatMap doubleChar (c :: t) = c :: concatMap doubleChar t := by
        simp [concatMap, doubleChar, beq_iff_eq, h]
      rw [hcm]
      by_cases hs : isSpaceChar c = true
      · rw [List.dropWhile_cons_of_pos hs, List.dropWhile_cons_of_pos hs, ih]
      · rw [List.dropWhile_cons_of_neg hs, List.dropWhile_cons_of_neg hs, hcm]

theorem doubleChar_palindrome (c : Char) : (doubleChar c).reverse = doubleChar c := by
  by_cases h : c = quoteChar <;> simp [doubleChar, h]

theorem reverse_concatMap_double (s : List Char) :
    (concatMap doubleChar s).reverse = concatMap doubleChar s.reverse := by
  induction s with
  | nil => rfl
  | cons c t ih =>
    simp only [concatMap, List.reverse_cons, List.reverse_append, ih,
      concatMap_append, doubleChar_palindrome]
    simp [concatMap]

theorem pyStrip_concatMap_double (s : List Char) :
    pyStrip (concatMap doubleChar s) = concatMap doubleChar (pyStrip s) := by
  unfold pyStrip
  rw [dropWhile_concatMap_double, reverse_concatMap_double, dropWhile_concatMap_double,
    reverse_concatMap_double]

/-- Core round trip: undoubling after strip-of-doubling recovers the strip. -/
theorem pyUndouble_pyStrip_pyDouble (s : List Char) :
    pyUndouble (pyStrip (pyDouble s)) = pyStrip s := by
  rw [pyDouble_eq_concatMap, pyStrip_concatMap_double, pyUndouble_concatMap_double]

/-! ### `pyStrip` is idempotent -/

theorem dropWhile_dropWhile (p : α → Bool) (l : List α) :
    (l.dropWhile p).dropWhile p = l.dropWhile p := by
  induction l with
  | nil => rfl
  | cons a t ih =>
    by_cases h : p a = true
    · rw [List.dropWhile_cons_of_pos h, ih]
    · rw [List.dropWhile_cons_of_neg h, List.dropWhile_cons_of_neg h]

theorem length_dropWhile_le (p : α → Bool) (l : List α) :
    (l.dropWhile p).length ≤ l.length := by
  induction l with
  | nil => simp
  | cons a t ih =>
    by_cases hp : p a = true
    · rw [List.dropWhile_cons_of_pos hp]
      exact Nat.le_trans ih (Nat.le_succ _)
    · rw [List.dropWhile_cons_of_neg hp]

theorem dropWhile_fixed_head {p : α → Bool} {a : α} {t : List α}
    (h : (a :: t).dropWhile p = a :: t) : p a = false := by
  by_cases hp : p a = true
  · rw [List.dropWhile_cons_of_pos hp] at h
    have h1 := congrArg List.length h
    have hle := length_dropWhile_le p t
    simp at h1
    omega
  · simpa using hp

/-- If `l` is a `dropWhile p` fixed point, then so is trimming it from the
other side. -/
theorem dropWhile_reverse_fixed {p : α → Bool} {l : List α}
    (h : l.dropWhile p = l) :
    ((l.reverse.dropWhile p).reverse).dropWhile p = (l.reverse.dropWhile p).reverse := by
  cases l with
  | nil => rfl
  | cons a t =>
    have hpa : p a = false := dropWhile_fixed_head h
    rw [List.reverse_cons, List.dropWhile_append]
    by_cases he : (t.reverse.dropWhile p).isEmpty = true
    · rw [if_pos he]
      have h1 : List.dropWhile p [a] = [a] := by
        rw [List.dropWhile_cons_of_neg (by simp [hpa])]
      rw [h1]
      simp only [List.reverse_cons, List.reverse_nil, List.nil_append]
      rw [h1]
    · rw [if_neg he]
      rw [List.reverse_append]
      simp only [List.reverse_cons, List.reverse_nil, List.nil_append, List.singleton_append]
      rw [List.dropWhile_cons_of_neg (by simp [hpa])]

theorem pyStrip_idem (s : List Char) : pyStrip (pyStrip s) = pyStrip s := by
  unfold pyStrip
  have h1 : (s.dropWhile isSpaceChar).dropWhile isSpaceChar = s.dropWhile isSpaceChar :=
    dropWhile_dropWhile _ _
  have h2 := dropWhile_reverse_fixed (p := isSpaceChar) h1
  rw [h2]
  rw [List.reverse_reverse]
  rw [dropWhile_dropWhile]

theorem storedText_vstr (s : List Char) : storedText (.vstr s) = pyStrip s := by
  simp [storedText, preprocess_value, pyUndouble_pyStrip_pyDouble]

theorem storedCell_text_vstr (s : List Char) :
    storedCell false (.vstr s) = .ctext (pyStrip s) := by
  simp [storedCell, preprocess_value, pyUndouble_pyStrip_pyDouble]

theorem storedCell_int_vint (n : Int) : storedCell true (.vint n) = .cint n := rfl

theorem storedCell_int_vnone : storedCell true .vnone = .ctext (strChars "None") := by
  simp [storedCell, preprocess_value, intAffinity, parseIntText, strChars]

theorem idsFrom_length (base : Int) (n : Nat) : (idsFrom base n).length = n := by
  induction n generalizing base with
  | zero => rfl
  | succ n ih => simp [idsFrom, ih]

theorem idsFrom_getElem? (n : Nat) :
    ∀ (base : Int) (k : Nat), k < n → (idsFrom base n)[k]? = some (base + k) := by
  induction n with
  | zero => intro base k hk; omega
  | succ n ih =>
    intro base k hk
    cases k with
    | zero => simp [idsFrom]
    | succ k =>
      have hk' : k < n := by omega
      have := ih (base + 1) k hk'
      simp only [idsFrom, List.getElem?_cons_succ, this]
      congr 1
      omega

/-- The session phase seen whole: the ids are consecutive from `t.nextId`,
and the table grows by exactly the described rows. -/
theorem processSessionsAux_eq (rows : List InputRow) :
    ∀ (last : PyVal) (t : SessionsTable),
    processSessionsAux last t rows
      = (idsFrom t.nextId rows.length,
         { rows := t.rows ++ newSessionRows last t.nextId rows
         , nextId := t.nextId + rows.length }) := by
  induction rows with
  | nil =>
    intro last t
    simp [processSessionsAux, idsFrom, newSessionRows]
  | cons r rest ih =>
    intro last t
    have hinserted :
        (sessionsInsert t (if r.session_type = .vstr subTypeStr
            then { mkSessionData r with supersession_id := some last }
            else mkSessionData r)).2
          = { rows := t.rows ++ [mkStoredRow r last t.nextId], nextId := t.nextId + 1 } := by
      by_cases h : r.session_type = .vstr subTypeStr
      · simp [sessionsInsert, mkStoredRow, mkSessionData, cellOfOpt, h]
      · simp [sessionsInsert, mkStoredRow, mkSessionData, cellOfOpt, h]
    simp only [processSessionsAux]
    rw [ih]
    simp only [hinserted]
    simp only [Prod.mk.injEq, SessionsTable.mk.injEq]
    refine ⟨?_, ?_, ?_⟩
    · simp [sessionsInsert, idsFrom]
    · simp [sessionsInsert, newSessionRows, List.append_assoc]
    · simp only [List.length_cons]
      omega

/-- A "Sub" row preceded (within the block) by no "Session" row stores the
literal rendering of the incoming `last`. -/
theorem newSessionRows_no_session (rows : List InputRow) :
    ∀ (last : PyVal) (base : Int) (j : Nat) (rj : InputRow),
    rows[j]? = some rj →
    (∀ i r, i < j → rows[i]? = some r → r.session_type ≠ .vstr sessionTypeStr) →
    (newSessionRows last base rows)[j]?
      = some (mkStoredRow rj last (base + j)) := by
  induction rows with
  | nil => intro last base j rj hj _; simp at hj
  | cons r rest ih =>
    intro last base j rj hj hpre
    cases j with
    | zero =>
      simp at hj
      subst hj
      simp [newSessionRows]
    | succ j =>
      have hr : r.session_type ≠ .vstr sessionTypeStr :=
        hpre 0 r (Nat.succ_pos j) (by simp)
      have hlast : (if r.session_type = .vstr sessionTypeStr then PyVal.vint base else last)
          = last := by simp [hr]
      simp only [newSessionRows, List.getElem?_cons_succ, hlast]
      have hpre' : ∀ i r', i < j → rest[i]? = some r' →
          r'.session_type ≠ .vstr sessionTypeStr := by
        intro i r' hi hget
        exact hpre (i + 1) r' (by omega) (by simpa using hget)
      have := ih last (base + 1) j rj (by simpa using hj) hpre'
      rw [this]
      congr 2
      omega

/-- A "Sub" row whose nearest preceding "Session" row (within the block) is
at position `k` stores the id assigned to row `k`. -/
theorem newSessionRows_after_session (rows : List InputRow) :
    ∀ (last : PyVal) (base : Int) (j k : Nat) (rk rj : InputRow),
    k < j →
    rows[k]? = some rk → rk.session_type = .vstr sessionTypeStr →
    (∀ i r, k < i → i < j → rows[i]? = some r →
        r.session_type ≠ .vstr sessionTypeStr) →
    rows[j]? = some rj →
    (newSessionRows last base rows)[j]?
      = some (mkStoredRow rj (.vint (base + k)) (base + j)) := by
  induction rows with
  | nil => intro last base j k rk rj _ hk _ _ _; simp at hk
  | cons r rest ih =>
    intro last base j k rk rj hkj hk hkty hbetween hj
    cases k with
    | zero =>
      simp at hk
      subst hk
      obtain ⟨j', rfl⟩ : ∃ j', j = j' + 1 := ⟨j - 1, by omega⟩
      have hcond : (if r.session_type = PyVal.vstr sessionTypeStr
          then PyVal.vint base else last) = PyVal.vint base := by rw [if_pos hkty]
      simp only [newSessionRows, List.getElem?_cons_succ, hcond]
      have hpre' : ∀ i r', i < j' → rest[i]? = some r' →
          r'.session_type ≠ .vstr sessionTypeStr := by
        intro i r' hi hget
        exact hbetween (i + 1) r' (by omega) (by omega) (by simpa using hget)
      have := newSessionRows_no_session rest (.vint base) (base + 1) j' rj
        (by simpa using hj) hpre'
      rw [this]
      congr 2
      · congr 1
        omega
      · omega
    | succ k' =>
      obtain ⟨j', rfl⟩ : ∃ j', j = j' + 1 := ⟨j - 1, by omega⟩
      simp only [newSessionRows, List.getElem?_cons_succ]
      have hbetween' : ∀ i r', k' < i → i < j' → rest[i]? = some r' →
          r'.session_type ≠ .vstr sessionTypeStr := by
        intro i r' h1 h2 hget
        exact hbetween (i + 1) r' (by omega) (by omega) (by simpa using hget)
      have := ih (if r.session_type = .vstr sessionTypeStr then PyVal.vint base else last)
        (base + 1) j' k' rk rj (by omega) (by simpa using hk) hkty hbetween'
        (by simpa using hj)
      rw [this]
      congr 2
      · congr 1
        omega
      · omega

/-! ### Claim C1 -/

/-- C1: in any imported row sequence, a row of session_type "Sub" whose
nearest preceding row of session_type exactly "Session" sits at position `k`
(no "Session" row strictly between — rows of any other session_type never
update the tracked id) is stored with `supersession_id` equal to the id
assigned to row `k`. -/
theorem c1_sub_rows_link_to_preceding_session
    (rows : List InputRow) (t : SessionsTable) (j k : Nat) (rk rj : InputRow)
    (hk : rows[k]? = some rk) (hkty : rk.session_type = .vstr sessionTypeStr)
    (hkj : k < j) (hj : rows[j]? = some rj) (hjty : rj.session_type = .vstr subTypeStr)
    (hbetween : ∀ i r, k < i → i < j → rows[i]? = some r →
        r.session_type ≠ .vstr sessionTypeStr) :
    ∃ idk row,
      (process_session_data rows t).1[k]? = some idk ∧
      (process_session_data rows t).2.rows[t.rows.length + j]? = some row ∧
      row.supersession_id = .cint idk := by
  have hklen : k < rows.length := by
    by_contra hgt
    rw [List.getElem?_eq_none (by omega)] at hk
    cases hk
  unfold process_session_data
  rw [processSessionsAux_eq]
  refine ⟨t.nextId + k, mkStoredRow rj (.vint (t.nextId + k)) (t.nextId + j), ?_, ?_, ?_⟩
  · exact idsFrom_getElem? rows.length t.nextId k hklen
  · simp only
    rw [List.getElem?_append_right (by omega)]
    have harith : t.rows.length + j - t.rows.length = j := by omega
    rw [harith]
    exact newSessionRows_after_session rows .vnone t.nextId j k rk rj hkj hk hkty hbetween hj
  · simp [mkStoredRow, hjty, storedCell_int_vint]

/-- Witness for C1 on a concrete three-row input `[Session, Break, Sub]`:
the "Sub" row links to the "Session" row two positions earlier, across the
intervening "Break" row. -/
theorem c1_witness :
    ∃ idk row,
      (process_session_data c1Rows { rows := [], nextId := 1 }).1[(0 : Nat)]? = some idk ∧
      (process_session_data c1Rows { rows := [], nextId := 1 }).2.rows[(2 : Nat)]? = some row ∧
      row.supersession_id = .cint idk := by
  have h := c1_sub_rows_link_to_preceding_session c1Rows ⟨[], 1⟩ 2 0 wSessionRow wSubRow
    (by decide) (by decide) (by omega) (by decide) (by decide)
    (by
      intro i r h1 h2 hget
      have hi : i = 1 := by omega
      subst hi
      have hr : r = wBreakRow := by
        have hb : c1Rows[(1 : Nat)]? = some wBreakRow := by decide
        rw [hb] at hget
        exact (Option.some.inj hget).symm
      subst hr
      decide)
  simpa using h

/-! ### Claim C3 -/

/-- C3 (amended): a "Sub" row imported before any "Session" row has been
seen is accepted silently — the insert succeeds and every row still gets an
id — but the stored `supersession_id` cell is the TEXT value `None` (the
Python rendering of the unset `last_session_id` embedded in the SQL
literal), not SQL NULL. -/
theorem c3_sub_before_any_session_stores_none_text
    (rows : List InputRow) (t : SessionsTable) (j : Nat) (rj : InputRow)
    (hj : rows[j]? = some rj) (hjty : rj.session_type = .vstr subTypeStr)
    (hbefore : ∀ i r, i < j → rows[i]? = some r →
        r.session_type ≠ .vstr sessionTypeStr) :
    ∃ row,
      (process_session_data rows t).2.rows[t.rows.length + j]? = some row ∧
      row.supersession_id = .ctext (strChars "None") ∧
      (process_session_data rows t).1.length = rows.length := by
  unfold process_session_data
  rw [processSessionsAux_eq]
  refine ⟨mkStoredRow rj .vnone (t.nextId + j), ?_, ?_, ?_⟩
  · simp only
    rw [List.getElem?_append_right (by omega)]
    have harith : t.rows.length + j - t.rows.length = j := by omega
    rw [harith]
    exact newSessionRows_no_session rows .vnone t.nextId j rj hj hbefore
  · simp [mkStoredRow, hjty, storedCell_int_vnone]
  · simp [idsFrom_length]

/-- Witness for the amended C3 on the one-row input `[Sub]`. -/
theorem c3_witness :
    ∃ row,
      (process_session_data c3Rows { rows := [], nextId := 1 }).2.rows[(0 : Nat)]? = some row ∧
      row.supersession_id = .ctext (strChars "None") ∧
      (process_session_data c3Rows { rows := [], nextId := 1 }).1.length = c3Rows.length := by
  have h := c3_sub_before_any_session_stores_none_text c3Rows ⟨[], 1⟩ 0 wSubRow
    (by decide) (by decide)
    (by intro i r h1 _; omega)
  simpa using h

/-- Counterexample to C3 as stated: importing a lone "Sub" row succeeds, but
the stored supersession cell is the TEXT value `None`, which is not a null
link. -/
theorem c3_counterexample :
    importedSupersessionCells c3Rows = some [Cell.ctext (strChars "None")] ∧
    Cell.ctext (strChars "None") ≠ Cell.cnull := by
  constructor
  · decide
  · decide

/-! ### Claims C8 and C10 (the value codec) -/

/-- C10: the codec round trip holds for every string, with no side condition:
`decode(encode(x)) = x.strip()`, because `encode` doubles each apostrophe
character-wise and `decode`'s left-to-right non-overlapping pair replacement
collapses every doubled run back. -/
theorem c10_codec_roundtrip_all_strings :
    (∀ s : List Char,
        postprocess_value (preprocess_value (.vstr s)) = .vstr (pyStrip s)) ∧
    (∀ s : List Char, pyDouble s = concatMap doubleChar s) ∧
    (∀ s : List Char, pyUndouble (pyDouble s) = s) := by
  refine ⟨?_, pyDouble_eq_concatMap, ?_⟩
  · intro s
    simp [preprocess_value, postprocess_value, pyUndouble_pyStrip_pyDouble]
  · intro s
    rw [pyDouble_eq_concatMap, pyUndouble_concatMap_double]

/-- C8: the codec contract as specified: for textual values without a
pre-existing doubled apostrophe, `decode(encode(x)) = x.strip()`;
on non-textual values both `encode` and `decode` are the identity. -/
theorem c8_codec_contract :
    (∀ s : List Char, hasDoubledQuote s = false →
        postprocess_value (preprocess_value (.vstr s)) = .vstr (pyStrip s)) ∧
    (∀ v : PyVal, (∀ s, v ≠ .vstr s) →
        preprocess_value v = v ∧ postprocess_value v = v) := by
  constructor
  · intro s _
    simp [preprocess_value, postprocess_value, pyUndouble_pyStrip_pyDouble]
  · intro v hv
    cases v with
    | vstr s => exact absurd rfl (hv s)
    | vint n => exact ⟨rfl, rfl⟩
    | vnone => exact ⟨rfl, rfl⟩

/-- Witness for C8 at a concrete string and a concrete integer. -/
theorem c8_witness :
    hasDoubledQuote c8Str = false ∧
    postprocess_value (preprocess_value (.vstr c8Str)) = .vstr (pyStrip c8Str) ∧
    preprocess_value (.vint 42) = .vint 42 ∧
    postprocess_value (.vint 42) = .vint 42 := by
  have hnv : ∀ s, PyVal.vint 42 ≠ .vstr s := by
    intro s h
    cases h
  exact ⟨by decide, c8_codec_contract.1 c8Str (by decide),
    (c8_codec_contract.2 (.vint 42) hnv).1, (c8_codec_contract.2 (.vint 42) hnv).2⟩

/-! ### Claim C6 (the catch-all boundaries) -/

/-- C6 (amended): every error raised inside an entry point's body is caught
at its single catch-all boundary, printed to standard output prefixed by the
fixed text `Error occured: ` (spelled exactly as in the source, with one
"r"), and the process exits with the non-zero status 1. -/
theorem c6_catch_all_boundary :
    errText = strChars "Error occured: " ∧
    (∀ e body, body = Except.error e → catchBoundary body = ([errText ++ e], 1)) ∧
    (∀ rows db e db1, run_import rows db = .error (e, db1) →
        (import_main rows db).1 = ([errText ++ e], 1)) ∧
    (∀ col v db e, lookup_body col v db = .error e →
        lookup_main col v db = ([errText ++ e], 1)) := by
  refine ⟨rfl, ?_, ?_, ?_⟩
  · intro e body h
    subst h
    rfl
  · intro rows db e db1 h
    simp [import_main, h]
  · intro col v db e h
    simp [lookup_main, catchBoundary, h]

/-- Witness for the amended C6 at a concrete error. -/
theorem c6_witness :
    catchBoundary (Except.error (strChars "boom")) = ([errText ++ strChars "boom"], 1) ∧
    (1 : Nat) ≠ 0 :=
  ⟨c6_catch_all_boundary.2.1 (strChars "boom") _ rfl, by decide⟩

/-- Counterexample to C6 as stated: the boundary prints `Error occured: `
(sic), not the claimed `Error occurred: ` — shown on a concrete failing
lookup. -/
theorem c6_counterexample :
    lookup_main .qtitle (.vstr (strChars "Nope")) emptyDB
      = ([strChars "Error occured: No matches found for the given query."], 1) ∧
    strChars "Error occured: No matches found for the given query."
      ≠ strChars "Error occurred: No matches found for the given query." := by
  constructor
  · decide
  · decide

/-! ### Claim C7 (no primary match) -/

/-- C7: when the primary filter matches zero sessions, `get_all_matches`
raises the no-match business error (the subsession expansion and the
per-match speaker fetch that follow it are never reached), and the entry
point prints only the error line — no display records — and exits 1. -/
theorem c7_no_matches
    (col : QueryCol) (v : PyVal) (db : DB)
    (h : primaryMatches col v db.sessions db.assoc db.speakers = []) :
    get_all_matches col v db.sessions db.assoc db.speakers = .error noMatchMsg ∧
    lookup_main col v db = ([errText ++ noMatchMsg], 1) := by
  have hg : get_all_matches col v db.sessions db.assoc db.speakers = .error noMatchMsg := by
    simp [get_all_matches, h]
  exact ⟨hg, by simp [lookup_main, lookup_body, catchBoundary, hg]⟩

/-- Witness for C7: a title query that matches none of the three stored
sessions. -/
theorem c7_witness :
    primaryMatches .qtitle (.vstr (strChars "Nope")) c7DB.sessions c7DB.assoc c7DB.speakers
      = [] ∧
    get_all_matches .qtitle (.vstr (strChars "Nope")) c7DB.sessions c7DB.assoc c7DB.speakers
      = .error noMatchMsg ∧
    lookup_main .qtitle (.vstr (strChars "Nope")) c7DB = ([errText ++ noMatchMsg], 1) := by
  have h : primaryMatches .qtitle (.vstr (strChars "Nope")) c7DB.sessions c7DB.assoc
      c7DB.speakers = [] := by decide
  exact ⟨h, (c7_no_matches .qtitle (.vstr (strChars "Nope")) c7DB h).1,
    (c7_no_matches .qtitle (.vstr (strChars "Nope")) c7DB h).2⟩

/-! ### Claim C4 (title lookup with two subsessions) -/

theorem rowPost_id (r : SessionRow) : (rowPost r).id = r.id := rfl

/-- C4: when the title filter matches exactly one stored session and exactly
two stored sessions are its subsessions (their `supersession_id` equals its
id and their own ids are excluded from the already-matched id set), the
lookup returns exactly three display records: the primary match first, then
the two subsessions in store order.  The expansion filter runs only on the
primary match's id, so deeper nesting (a subsession of a subsession) is not
expanded. -/
theorem c4_title_with_two_subsessions
    (t : SessionsTable) (a : AssocTable) (sp : SpeakersTable) (v : PyVal)
    (s s1 s2 : SessionRow)
    (hprimary : t.rows.filter
        (fun r => eqTextLiteral (sessionCell r .qtitle) (storedText v)) = [s])
    (hsubs : t.rows.filter
        (fun r => inIntList r.supersession_id [s.id] && !([s.id].contains r.id))
        = [s1, s2]) :
    get_all_matches .qtitle v t a sp = .ok [rowPost s, rowPost s1, rowPost s2] := by
  have hpm : primaryMatches .qtitle v t a sp = [rowPost s] := by
    unfold primaryMatches
    rw [if_neg (by decide)]
    rw [hprimary]
    rfl
  have hexp : subExpansion t [s.id] = [rowPost s1, rowPost s2] := by
    unfold subExpansion
    rw [hsubs]
    rfl
  unfold get_all_matches
  rw [hpm]
  rw [if_neg (by simp)]
  simp only [List.map_cons, List.map_nil, rowPost_id]
  rw [hexp]
  rfl

/-- Witness for C4: the grandchild row is present in the store but not in
the three returned records (single-level expansion). -/
theorem c4_witness :
    get_all_matches .qtitle (.vstr (strChars "Parent")) c4Table
        { rows := [], nextRowid := 1 } { rows := [], nextId := 1 }
      = .ok [rowPost (c4Table.rows.get ⟨0, by decide⟩),
             rowPost (c4Table.rows.get ⟨1, by decide⟩),
             rowPost (c4Table.rows.get ⟨2, by decide⟩)] := by
  have h := c4_title_with_two_subsessions c4Table ⟨[], 1⟩ ⟨[], 1⟩
    (.vstr (strChars "Parent"))
    (c4Table.rows.get ⟨0, by decide⟩) (c4Table.rows.get ⟨1, by decide⟩)
    (c4Table.rows.get ⟨2, by decide⟩) (by decide) (by decide)
  exact h

/-! ### Claim C5 (insert: surrogate ids and constraint surfacing) -/

/-- C5 (amended): `insert` returns the newly assigned surrogate identifier;
a UNIQUE violation (duplicate speaker name) and a composite PRIMARY KEY
violation (duplicate association pair) surface as errors; but the declared
FOREIGN KEY constraints are not enforced — SQLite leaves foreign-key
enforcement off by default and the program never enables it — so an
association insert whose pair is new succeeds no matter what it references. -/
theorem c5_insert_ids_and_constraints :
    (∀ t d, (sessionsInsert t d).1 = t.nextId) ∧
    (∀ t v nid t1, speakersInsert t v = .ok (nid, t1) → nid = t.nextId) ∧
    (∀ t v, t.rows.any (fun s => s.name == storedCell false v) = true →
        speakersInsert t v = .error uniqueNameMsg) ∧
    (∀ t sid spid, t.rows.any (fun a => a.session_id == storedCell true sid
        && a.speaker_id == storedCell true spid) = true →
        assocInsert t sid spid = .error pkViolationMsg) ∧
    (∀ t sid spid, t.rows.any (fun a => a.session_id == storedCell true sid
        && a.speaker_id == storedCell true spid) = false →
        assocInsert t sid spid
          = .ok (t.nextRowid,
              { rows := t.rows ++ [{ session_id := storedCell true sid
                                   , speaker_id := storedCell true spid }]
              , nextRowid := t.nextRowid + 1 })) := by
  refine ⟨?_, ?_, ?_, ?_, ?_⟩
  · intro t d
    rfl
  · intro t v nid t1 h
    unfold speakersInsert at h
    by_cases hc : t.rows.any (fun s => s.name == storedCell false v) = true
    · rw [if_pos hc] at h
      cases h
    · rw [if_neg hc] at h
      cases h
      rfl
  · intro t v h
    unfold speakersInsert
    rw [if_pos h]
  · intro t sid spid h
    unfold assocInsert
    rw [if_pos h]
  · intro t sid spid h
    unfold assocInsert
    rw [if_neg (by simp [h])]

/-- Witness for C5: the surrogate id comes back; a duplicate name errors;
a duplicate pair errors; a dangling pair (no sessions or speakers exist at
all) silently succeeds. -/
theorem c5_witness :
    (sessionsInsert { rows := [], nextId := 1 } (mkSessionData wSubRow)).1 = 1 ∧
    speakersInsert adaSpeakers (.vstr (strChars "Ada")) = .error uniqueNameMsg ∧
    assocInsert { rows := [{ session_id := .cint 5, speaker_id := .cint 7 }]
                , nextRowid := 2 } (.vint 5) (.vint 7) = .error pkViolationMsg ∧
    assocInsert { rows := [], nextRowid := 1 } (.vint 5) (.vint 7)
      = .ok (1, { rows := [{ session_id := .cint 5, speaker_id := .cint 7 }]
                , nextRowid := 2 }) := by
  refine ⟨c5_insert_ids_and_constraints.1 _ _, ?_, ?_, ?_⟩
  · exact c5_insert_ids_and_constraints.2.2.1 adaSpeakers (.vstr (strChars "Ada")) (by decide)
  · exact c5_insert_ids_and_constraints.2.2.2.1 _ (.vint 5) (.vint 7) (by decide)
  · exact c5_insert_ids_and_constraints.2.2.2.2 _ (.vint 5) (.vint 7) (by decide)

/-- Counterexample to C5 as stated: an association referencing session 5 and
speaker 7 — neither of which exists anywhere — does not fail: it is accepted
silently, because the insert never consults the referenced tables. -/
theorem c5_counterexample :
    assocInsert { rows := [], nextRowid := 1 } (.vint 5) (.vint 7)
      = .ok (1, { rows := [{ session_id := .cint 5, speaker_id := .cint 7 }]
                , nextRowid := 2 }) ∧
    emptyDB.sessions.rows = [] ∧ emptyDB.speakers.rows = [] := by
  refine ⟨rfl, rfl, rfl⟩

theorem mem_concatMap {f : α → List β} {l : List α} {b : β} :
    b ∈ concatMap f l ↔ ∃ a, a ∈ l ∧ b ∈ f a := by
  induction l with
  | nil => simp [concatMap]
  | cons x t ih =>
    simp only [concatMap, List.mem_append, ih, List.mem_cons]
    constructor
    · rintro (hb | ⟨a, ha, hb⟩)
      · exact ⟨x, Or.inl rfl, hb⟩
      · exact ⟨a, Or.inr ha, hb⟩
    · rintro ⟨a, ha | ha, hb⟩
      · subst ha
        exact Or.inl hb
      · exact Or.inr ⟨a, ha, hb⟩

theorem filter_concatMap (p : β → Bool) (f : α → List β) (l : List α) :
    (concatMap f l).filter p = concatMap (fun a => (f a).filter p) l := by
  induction l with
  | nil => rfl
  | cons x t ih => simp [concatMap, List.filter_append, ih]

theorem filter_of_map (p : β → Bool) (f : α → β) (l : List α) :
    (l.map f).filter p = (l.filter (fun a => p (f a))).map f := by
  induction l with
  | nil => rfl
  | cons x t ih =>
    by_cases h : p (f x) = true
    · simp [List.filter_cons, h, ih]
    · simp [List.filter_cons, h, ih]

theorem countEq_append [DecidableEq α] (a : α) (l₁ l₂ : List α) :
    countEq a (l₁ ++ l₂) = countEq a l₁ + countEq a l₂ := by
  induction l₁ with
  | nil => simp [countEq]
  | cons x t ih =>
    show countEq a (x :: (t ++ l₂)) = _
    simp only [countEq, ih]
    omega

theorem countEq_eq_zero_of_not_mem [DecidableEq α] {a : α} {l : List α}
    (h : a ∉ l) : countEq a l = 0 := by
  induction l with
  | nil => rfl
  | cons x t ih =>
    have hx : x ≠ a := fun he => h (he ▸ List.mem_cons_self x t)
    simp only [countEq, if_neg hx]
    have h0 := ih (fun hm => h (List.mem_cons_of_mem x hm))
    omega

theorem one_le_countEq_of_mem [DecidableEq α] {a : α} {l : List α} (h : a ∈ l) :
    1 ≤ countEq a l := by
  induction l with
  | nil => cases h
  | cons x t ih =>
    simp only [countEq]
    by_cases hx : x = a
    · rw [if_pos hx]
      omega
    · rw [if_neg hx]
      cases h with
      | head => exact absurd rfl hx
      | tail _ h' =>
        have := ih h'
        omega

theorem countEq_le_one_of_nodup [DecidableEq α] {l : List α} (h : l.Nodup)
    (a : α) : countEq a l ≤ 1 := by
  induction l with
  | nil => simp [countEq]
  | cons x t ih =>
    obtain ⟨hx, ht⟩ := List.nodup_cons.1 h
    simp only [countEq]
    by_cases hxa : x = a
    · rw [if_pos hxa]
      rw [countEq_eq_zero_of_not_mem (hxa ▸ hx)]
    · rw [if_neg hxa]
      have := ih ht
      omega

theorem exists_two_le_countEq_of_not_nodup [DecidableEq α] {l : List α}
    (h : ¬ l.Nodup) : ∃ a, 2 ≤ countEq a l := by
  induction l with
  | nil => exact absurd List.nodup_nil h
  | cons x t ih =>
    by_cases hx : x ∈ t
    · refine ⟨x, ?_⟩
      have h1 := one_le_countEq_of_mem hx
      have h2 : countEq x (x :: t) = 1 + countEq x t := by simp [countEq]
      omega
    · by_cases ht : t.Nodup
      · exact absurd (List.nodup_cons.2 ⟨hx, ht⟩) h
      · obtain ⟨a, ha⟩ := ih ht
        refine ⟨a, ?_⟩
        simp only [countEq]
        omega

theorem countEq_map_ge [DecidableEq α] [DecidableEq β] (f : α → β) (l : List α)
    (a : α) : countEq a l ≤ countEq (f a) (l.map f) := by
  induction l with
  | nil => simp [countEq]
  | cons x t ih =>
    simp only [List.map_cons, countEq]
    by_cases h : x = a
    · rw [if_pos h, if_pos (by rw [h])]
      omega
    · rw [if_neg h]
      by_cases h2 : f x = f a
      · rw [if_pos h2]
        omega
      · rw [if_neg h2]
        omega

theorem countEq_map_pair (sid : Int) (l : List (List Char)) (n : List Char) :
    countEq ((sid, n) : Int × List Char) (l.map (fun m => (sid, m)))
      = countEq n l := by
  induction l with
  | nil => rfl
  | cons x t ih =>
    simp only [List.map_cons, countEq, ih]
    by_cases h : x = n
    · rw [if_pos h, if_pos (by rw [h])]
    · rw [if_neg h, if_neg (fun he => h (congrArg Prod.snd he))]

theorem dictGet?_set_same (d : SpeakerDict) (n : List Char) (v : Int) :
    dictGet? (dictSet d n v) n = some v := by
  simp [dictGet?, dictSet, List.find?]

theorem dictGet?_set_other (d : SpeakerDict) (n m : List Char) (v : Int)
    (h : m ≠ n) : dictGet? (dictSet d n v) m = dictGet? d m := by
  have hb : (n == m) = false := by
    simp [beq_iff_eq]
    exact fun he => h he.symm
  simp [dictGet?, dictSet, List.find?, hb]

theorem mkSpRows_length (b : Int) (l : List (List Char)) :
    (mkSpRows b l).length = l.length := by
  induction l generalizing b with
  | nil => rfl
  | cons n t ih => simp [mkSpRows, ih]

theorem mkSpRows_append (b : Int) (l : List (List Char)) (n : List Char) :
    mkSpRows b (l ++ [n])
      = mkSpRows b l ++ [{ id := b + l.length, name := .ctext n }] := by
  induction l generalizing b with
  | nil => simp [mkSpRows]
  | cons m t ih =>
    show mkSpRows b (m :: (t ++ [n])) = _
    simp only [mkSpRows, List.cons_append]
    rw [ih (b + 1)]
    have harith : b + ((t.length + 1 : Nat) : Int) = b + 1 + (t.length : Int) := by
      push_cast
      ring
    simp only [List.length_cons, harith]

theorem mkSpRows_filter_not_mem (b : Int) (l : List (List Char)) (n : List Char)
    (h : n ∉ l) :
    (mkSpRows b l).filter (fun s => s.name == Cell.ctext n) = [] := by
  induction l generalizing b with
  | nil => rfl
  | cons m t ih =>
    have hm : m ≠ n := by
      intro he
      exact h (he ▸ List.mem_cons_self m t)
    have hcell : (Cell.ctext m == Cell.ctext n) = false := by
      simp [beq_iff_eq, hm]
    simp only [mkSpRows, List.filter_cons, hcell]
    simp only [Bool.false_eq_true, if_false]
    exact ih (b + 1) (fun hmem => h (List.mem_cons_of_mem m hmem))

theorem mkSpRows_any_false (b : Int) (l : List (List Char)) (n : List Char)
    (h : n ∉ l) :
    (mkSpRows b l).any (fun s => s.name == Cell.ctext n) = false := by
  induction l generalizing b with
  | nil => rfl
  | cons m t ih =>
    have hm : m ≠ n := by
      intro he
      exact h (he ▸ List.mem_cons_self m t)
    have hcell : (Cell.ctext m == Cell.ctext n) = false := by
      simp [beq_iff_eq, hm]
    simp only [mkSpRows, List.any_cons, hcell, Bool.false_or]
    exact ih (b + 1) (fun hmem => h (List.mem_cons_of_mem m hmem))

theorem mkSpRows_filter_mem (l : List (List Char)) :
    ∀ (b : Int) (n : List Char), n ∈ l → l.Nodup →
    (mkSpRows b l).filter (fun s => s.name == Cell.ctext n)
      = [{ id := specIdFrom b n l, name := .ctext n }] := by
  induction l with
  | nil => intro b n h _; cases h
  | cons m t ih =>
    intro b n hmem hnd
    by_cases hm : m = n
    · subst hm
      have hnt : m ∉ t := (List.nodup_cons.1 hnd).1
      simp only [mkSpRows, List.filter_cons, beq_self_eq_true, if_true]
      rw [mkSpRows_filter_not_mem (b + 1) t m hnt]
      simp [specIdFrom]
    · have hcell : (Cell.ctext m == Cell.ctext n) = false := by
        simp [beq_iff_eq, hm]
      have hmem' : n ∈ t := by
        cases hmem with
        | head => exact absurd rfl hm
        | tail _ h => exact h
      simp only [mkSpRows, List.filter_cons, hcell, Bool.false_eq_true, if_false]
      rw [ih (b + 1) n hmem' (List.nodup_cons.1 hnd).2]
      simp [specIdFrom, hm]

theorem specIdFrom_stable (l : List (List Char)) :
    ∀ (b : Int) (m n : List Char), m ∈ l →
    specIdFrom b m (l ++ [n]) = specIdFrom b m l := by
  induction l with
  | nil => intro b m n h; cases h
  | cons x t ih =>
    intro b m n hmem
    by_cases hx : x = m
    · simp [specIdFrom, hx]
    · have hmem' : m ∈ t := by
        cases hmem with
        | head => exact absurd rfl hx
        | tail _ h => exact h
      simp [specIdFrom, hx, ih (b + 1) m n hmem']

theorem specIdFrom_append_new (l : List (List Char)) :
    ∀ (b : Int) (n : List Char), n ∉ l →
    specIdFrom b n (l ++ [n]) = b + l.length := by
  induction l with
  | nil => intro b n _; simp [specIdFrom]
  | cons x t ih =>
    intro b n hnot
    have hx : x ≠ n := by
      intro he
      exact hnot (he ▸ List.mem_cons_self x t)
    have hnot' : n ∉ t := fun h => hnot (List.mem_cons_of_mem x h)
    show specIdFrom b n (x :: (t ++ [n])) = _
    simp only [specIdFrom, if_neg hx]
    rw [ih (b + 1) n hnot']
    simp only [List.length_cons]
    omega

theorem specIdFrom_bounds (l : List (List Char)) :
    ∀ (b : Int) (n : List Char), n ∈ l →
    b ≤ specIdFrom b n l ∧ specIdFrom b n l < b + l.length := by
  induction l with
  | nil => intro b n h; cases h
  | cons x t ih =>
    intro b n hmem
    by_cases hx : x = n
    · simp only [specIdFrom, if_pos hx, List.length_cons]
      omega
    · have hmem' : n ∈ t := by
        cases hmem with
        | head => exact absurd rfl hx
        | tail _ h => exact h
      have := ih (b + 1) n hmem'
      simp only [specIdFrom, if_neg hx, List.length_cons]
      omega

theorem specIdFrom_inj (l : List (List Char)) :
    ∀ (b : Int) (n1 n2 : List Char), n1 ∈ l → n2 ∈ l →
    specIdFrom b n1 l = specIdFrom b n2 l → n1 = n2 := by
  induction l with
  | nil => intro b n1 n2 h; cases h
  | cons x t ih =>
    intro b n1 n2 h1 h2 heq
    by_cases hx1 : x = n1
    · subst hx1
      by_cases hx2 : x = n2
      · exact hx2
      · exfalso
        have hmem2 : n2 ∈ t := by
          cases h2 with
          | head => exact absurd rfl hx2
          | tail _ h => exact h
        have hb := (specIdFrom_bounds t (b + 1) n2 hmem2).1
        simp only [specIdFrom, eq_self_iff_true, if_true, if_neg hx2] at heq
        omega
    · by_cases hx2 : x = n2
      · subst hx2
        exfalso
        have hmem1 : n1 ∈ t := by
          cases h1 with
          | head => exact absurd rfl hx1
          | tail _ h => exact h
        have hb := (specIdFrom_bounds t (b + 1) n1 hmem1).1
        simp only [specIdFrom, eq_self_iff_true, if_true, if_neg hx1] at heq
        omega
      · have hmem1 : n1 ∈ t := by
          cases h1 with
          | head => exact absurd rfl hx1
          | tail _ h => exact h
        have hmem2 : n2 ∈ t := by
          cases h2 with
          | head => exact absurd rfl hx2
          | tail _ h => exact h
        simp only [specIdFrom, if_neg hx1, if_neg hx2] at heq
        exact ih (b + 1) n1 n2 hmem1 hmem2 heq

theorem mem_foldl_addSeen (l : List (List Char)) :
    ∀ (acc : List (List Char)) (m : List Char),
    m ∈ l.foldl addSeen acc ↔ m ∈ acc ∨ m ∈ l := by
  induction l with
  | nil => intro acc m; simp
  | cons n t ih =>
    intro acc m
    simp only [List.foldl_cons, ih, List.mem_cons]
    unfold addSeen
    by_cases h : n ∈ acc
    · rw [if_pos h]
      constructor
      · rintro (hm | hm)
        · exact Or.inl hm
        · exact Or.inr (Or.inr hm)
      · rintro (hm | rfl | hm)
        · exact Or.inl hm
        · exact Or.inl h
        · exact Or.inr hm
    · rw [if_neg h]
      simp only [List.mem_append, List.mem_singleton]
      constructor
      · rintro ((hm | rfl) | hm)
        · exact Or.inl hm
        · exact Or.inr (Or.inl rfl)
        · exact Or.inr (Or.inr hm)
      · rintro (hm | rfl | hm)
        · exact Or.inl (Or.inl hm)
        · exact Or.inl (Or.inr rfl)
        · exact Or.inr hm

theorem trimmedNames_fixed (v : PyVal) : ∀ n ∈ trimmedNames v, pyStrip n = n := by
  intro n hn
  cases v with
  | vstr s =>
    simp only [trimmedNames, List.mem_map] at hn
    obtain ⟨x, _, rfl⟩ := hn
    exact pyStrip_idem x
  | vint k =>
    simp only [trimmedNames, List.mem_map] at hn
    obtain ⟨x, _, rfl⟩ := hn
    exact pyStrip_idem x
  | vnone => cases hn

/-- One name-resolution step preserves the scan invariant: a seen name is
found by the select and its cached id refreshed; a new name is inserted
(the UNIQUE check cannot fire after the select missed) and cached. -/
theorem resolveName_ok (b : Int) (seen : List (List Char)) (sp : SpeakersTable)
    (d : SpeakerDict) (n : List Char)
    (hst : StateOK b seen sp d) (hn : pyStrip n = n) :
    ∃ sp1 d1, resolveName sp d n = .ok (sp1, d1) ∧ StateOK b (addSeen seen n) sp1 d1 := by
  obtain ⟨hnd, hrows, hnext, hdict⟩ := hst
  have hlit : storedText (.vstr n) = n := by rw [storedText_vstr, hn]
  by_cases hmem : n ∈ seen
  · have hsel : speakersSelectIdsByName sp (.vstr n) = [specIdFrom b n seen] := by
      unfold speakersSelectIdsByName
      rw [hlit, hrows, mkSpRows_filter_mem seen b n hmem hnd]
      rfl
    refine ⟨sp, dictSet d n (specIdFrom b n seen), ?_, ?_⟩
    · unfold resolveName
      rw [hsel]
    · unfold addSeen
      rw [if_pos hmem]
      refine ⟨hnd, hrows, hnext, ?_⟩
      intro m
      by_cases hm : m = n
      · subst hm
        rw [dictGet?_set_same, if_pos hmem]
      · rw [dictGet?_set_other _ _ _ _ hm, hdict m]
  · have hsel : speakersSelectIdsByName sp (.vstr n) = [] := by
      unfold speakersSelectIdsByName
      rw [hlit, hrows, mkSpRows_filter_not_mem b seen n hmem]
      rfl
    have hstored : storedCell false (.vstr n) = .ctext n := by
      rw [storedCell_text_vstr, hn]
    have hany : (sp.rows.any (fun s => s.name == storedCell false (.vstr n))) = false := by
      rw [hstored, hrows]
      exact mkSpRows_any_false b seen n hmem
    have hins : speakersInsert sp (.vstr n)
        = .ok (sp.nextId,
            { rows := sp.rows ++ [{ id := sp.nextId, name := storedCell false (.vstr n) }]
            , nextId := sp.nextId + 1 }) := by
      unfold speakersInsert
      rw [if_neg (by rw [hany]; exact Bool.false_ne_true)]
    refine ⟨{ rows := sp.rows ++ [{ id := sp.nextId, name := storedCell false (.vstr n) }]
            , nextId := sp.nextId + 1 }, dictSet d n sp.nextId, ?_, ?_⟩
    · unfold resolveName
      rw [hsel, hins]
    · unfold addSeen
      rw [if_neg hmem]
      refine ⟨?_, ?_, ?_, ?_⟩
      · simp [List.nodup_append, hnd, hmem]
      · rw [hrows, hstored, hnext, mkSpRows_append]
      · simp only [List.length_append, List.length_singleton, hnext]
        push_cast
        ring
      · intro m
        by_cases hm : m = n
        · subst hm
          rw [dictGet?_set_same, if_pos (by simp)]
          rw [hnext, specIdFrom_append_new seen b m hmem]
        · rw [dictGet?_set_other _ _ _ _ hm, hdict m]
          by_cases hms : m ∈ seen
          · rw [if_pos hms, if_pos (by simp [hms]),
              specIdFrom_stable seen b m n hms]
          · rw [if_neg hms, if_neg (by simp [hms, hm])]

/-- The inner name loop of the scan: all pending pairs for the row are
collected in order and the invariant advances over the row's names. -/
theorem speakerRowLoop_ok (names : List (List Char)) :
    ∀ (b : Int) (seen : List (List Char)) (sp : SpeakersTable) (d : SpeakerDict)
      (sid : Int),
    StateOK b seen sp d → (∀ n ∈ names, pyStrip n = n) →
    ∃ sp1 d1,
      speakerRowLoop sid sp d names
        = .ok (names.map (fun n => (sid, n)), sp1, d1) ∧
      StateOK b (names.foldl addSeen seen) sp1 d1 := by
  induction names with
  | nil =>
    intro b seen sp d sid hst _
    exact ⟨sp, d, rfl, by simpa using hst⟩
  | cons n t ih =>
    intro b seen sp d sid hst hfix
    obtain ⟨sp1, d1, hres, hst1⟩ := resolveName_ok b seen sp d n hst (hfix n (by simp))
    obtain ⟨sp2, d2, hloop, hst2⟩ := ih b (addSeen seen n) sp1 d1 sid hst1
      (fun m hm => hfix m (List.mem_cons_of_mem n hm))
    refine ⟨sp2, d2, ?_, ?_⟩
    · simp only [speakerRowLoop, hres, hloop, List.map_cons]
    · simpa using hst2

/-- The outer scan: it cannot fail, produces exactly the pending pair list,
and leaves the speaker table and cache described by the first-seen names. -/
theorem speakerScan_ok (l : List (Int × PyVal)) :
    ∀ (b : Int) (seen : List (List Char)) (sp : SpeakersTable) (d : SpeakerDict),
    StateOK b seen sp d →
    ∃ sp1 d1,
      speakerScan sp d l = .ok (allPairs l, sp1, d1) ∧
      StateOK b ((allNames l).foldl addSeen seen) sp1 d1 := by
  induction l with
  | nil =>
    intro b seen sp d hst
    exact ⟨sp, d, rfl, by simpa [allNames, concatMap] using hst⟩
  | cons p rest ih =>
    intro b seen sp d hst
    obtain ⟨sid, spk⟩ := p
    by_cases hna : spk = .vnone
    · subst hna
      obtain ⟨sp1, d1, hscan, hst1⟩ := ih b seen sp d hst
      refine ⟨sp1, d1, ?_, ?_⟩
      · simp only [speakerScan, if_pos rfl, hscan]
        simp [allPairs, concatMap, entryPairs, entryNames]
      · simpa [allNames, concatMap, entryNames] using hst1
    · obtain ⟨sp1, d1, hloop, hst1⟩ := speakerRowLoop_ok (trimmedNames spk) b seen sp d sid
        hst (fun m hm => trimmedNames_fixed spk m hm)
      obtain ⟨sp2, d2, hscan, hst2⟩ := ih b ((trimmedNames spk).foldl addSeen seen) sp1 d1 hst1
      refine ⟨sp2, d2, ?_, ?_⟩
      · simp only [speakerScan, if_neg hna, hloop, hscan]
        simp [allPairs, concatMap, entryPairs, entryNames, if_neg hna]
      · simp only [allNames, concatMap, entryNames, if_neg hna] at hst2 ⊢
        simpa [List.foldl_append] using hst2

theorem anyPair_eq_mem (rows : List AssocRow) (a : AssocRow) :
    (rows.any fun x => x.session_id == a.session_id
        && x.speaker_id == a.speaker_id) = true ↔ a ∈ rows := by
  rw [List.any_eq_true]
  constructor
  · rintro ⟨x, hx, hpx⟩
    simp only [Bool.and_eq_true, beq_iff_eq] at hpx
    obtain ⟨h1, h2⟩ := hpx
    have hxa : x = a := by
      cases x with
      | mk xs xp =>
        cases a with
        | mk ys yp =>
          simp only at h1 h2
          rw [h1, h2]
    rwa [← hxa]
  · intro hmem
    exact ⟨a, hmem, by simp⟩

/-- Phase 2 under a cache that resolves every pending name: it is the plain
row-insertion loop on the resolved rows. -/
theorem assocLoop_eq_spec (pairs : List (Int × List Char)) :
    ∀ (d : SpeakerDict) (t : AssocTable) (f : List Char → Int),
    (∀ p ∈ pairs, dictGet? d p.2 = some (f p.2)) →
    assocLoop d t pairs
      = specAssocLoop t
          (pairs.map (fun p => AssocRow.mk (.cint p.1) (.cint (f p.2)))) := by
  induction pairs with
  | nil => intro d t f _; rfl
  | cons p rest ih =>
    intro d t f hres
    obtain ⟨sid, n⟩ := p
    have hget : dictGet? d n = some (f n) := hres (sid, n) (by simp)
    by_cases hc : (t.rows.any fun x => x.session_id == Cell.cint sid
        && x.speaker_id == Cell.cint (f n)) = true
    · have hins : assocInsert t (.vint sid) (.vint (f n)) = .error pkViolationMsg := by
        unfold assocInsert
        rw [if_pos (by simpa [storedCell_int_vint] using hc)]
      simp only [assocLoop, hget, hins, List.map_cons, specAssocLoop]
      rw [if_pos hc]
    · have hins : assocInsert t (.vint sid) (.vint (f n))
          = .ok (t.nextRowid,
              { rows := t.rows ++ [{ session_id := .cint sid, speaker_id := .cint (f n) }]
              , nextRowid := t.nextRowid + 1 }) := by
        unfold assocInsert
        rw [if_neg (by simpa [storedCell_int_vint] using hc)]
        rfl
      simp only [assocLoop, hget, hins, List.map_cons, specAssocLoop]
      rw [if_neg hc]
      exact ih d _ f (fun q hq => hres q (List.mem_cons_of_mem _ hq))

/-- A run of the insertion loop that succeeds inserted every row: the rows
were all new and pairwise distinct, and they are appended in order. -/
theorem specAssocLoop_ok (res : List AssocRow) :
    ∀ (t t' : AssocTable), specAssocLoop t res = .ok t' →
    t'.rows = t.rows ++ res ∧ (∀ a ∈ res, a ∉ t.rows) ∧ res.Nodup := by
  induction res with
  | nil =>
    intro t t' h
    cases h
    exact ⟨by simp, by simp, List.nodup_nil⟩
  | cons a rest ih =>
    intro t t' h
    simp only [specAssocLoop] at h
    by_cases hc : (t.rows.any fun x => x.session_id == a.session_id
        && x.speaker_id == a.speaker_id) = true
    · rw [if_pos hc] at h
      cases h
    · rw [if_neg hc] at h
      obtain ⟨h1, h2, h3⟩ := ih _ t' h
      have hmem : a ∉ t.rows := fun hin => hc ((anyPair_eq_mem t.rows a).2 hin)
      refine ⟨by simpa [List.append_assoc] using h1, ?_, ?_⟩
      · intro b hb
        cases hb with
        | head => exact hmem
        | tail _ hb' =>
          exact fun hbt => h2 b hb' (List.mem_append_left _ hbt)
      · rw [List.nodup_cons]
        exact ⟨fun har => h2 a har (by simp), h3⟩

/-- A run of the insertion loop over rows that are not all-new-and-distinct
stops at the first repeat with the PK violation, leaving exactly the rows
inserted so far committed. -/
theorem specAssocLoop_error_of_dup (res : List AssocRow) :
    ∀ (t : AssocTable),
    ¬ ((∀ a ∈ res, a ∉ t.rows) ∧ res.Nodup) →
    ∃ t', specAssocLoop t res = .error (pkViolationMsg, t')
      ∧ t'.rows = t.rows ++ nodupPfxRel t.rows res
      ∧ (nodupPfxRel t.rows res).length < res.length := by
  induction res with
  | nil =>
    intro t hbad
    exact absurd ⟨fun a ha => absurd ha (List.not_mem_nil a), List.nodup_nil⟩ hbad
  | cons a rest ih =>
    intro t hbad
    by_cases hmem : a ∈ t.rows
    · refine ⟨t, ?_, ?_, ?_⟩
      · simp only [specAssocLoop]
        rw [if_pos ((anyPair_eq_mem t.rows a).2 hmem)]
      · simp [nodupPfxRel, hmem]
      · simp [nodupPfxRel, hmem]
    · have hbad' : ¬ ((∀ b ∈ rest, b ∉ t.rows ++ [a]) ∧ rest.Nodup) := by
        rintro ⟨hr1, hr2⟩
        apply hbad
        constructor
        · intro b hb
          cases hb with
          | head => exact hmem
          | tail _ hb' =>
            exact fun hbt => hr1 b hb' (List.mem_append_left _ hbt)
        · rw [List.nodup_cons]
          exact ⟨fun har => hr1 a har (by simp), hr2⟩
      obtain ⟨t', hrun, hrows, hlen⟩ := ih ⟨t.rows ++ [a], t.nextRowid + 1⟩ hbad'
      refine ⟨t', ?_, ?_, ?_⟩
      · simp only [specAssocLoop]
        rw [if_neg (fun h => hmem ((anyPair_eq_mem t.rows a).1 h))]
        exact hrun
      · rw [hrows]
        simp [nodupPfxRel, hmem, List.append_assoc]
      · simp only [nodupPfxRel, if_neg hmem, List.length_cons]
        simpa using Nat.succ_lt_succ hlen

theorem getElem?_some_lt {l : List α} {k : Nat} {a : α} (h : l[k]? = some a) :
    k < l.length := by
  by_contra hk
  rw [List.getElem?_eq_none (by omega)] at h
  cases h

theorem getElem?_some_mem {l : List α} {k : Nat} {a : α} (h : l[k]? = some a) :
    a ∈ l := by
  induction l generalizing k with
  | nil => simp at h
  | cons x t ih =>
    cases k with
    | zero =>
      simp at h
      subst h
      exact List.mem_cons_self x t
    | succ k =>
      simp only [List.getElem?_cons_succ] at h
      exact List.mem_cons_of_mem x (ih h)

theorem newSessionRows_length (rows : List InputRow) :
    ∀ (last : PyVal) (base : Int), (newSessionRows last base rows).length = rows.length := by
  induction rows with
  | nil => intro last base; rfl
  | cons r rest ih => intro last base; simp [newSessionRows, ih]

theorem zip_eq_rowsWithIds (rows : List InputRow) :
    ∀ b : Int, (idsFrom b rows.length).zip (rows.map (fun r => r.speakers))
      = rowsWithIds b rows := by
  induction rows with
  | nil => intro b; rfl
  | cons r rest ih =>
    intro b
    simp only [List.length_cons, idsFrom, List.map_cons, List.zip_cons_cons,
      rowsWithIds, ih]

theorem rowsWithIds_append (u : List InputRow) :
    ∀ (w : List InputRow) (b : Int),
    rowsWithIds b (u ++ w) = rowsWithIds b u ++ rowsWithIds (b + u.length) w := by
  induction u with
  | nil => intro w b; simp [rowsWithIds]
  | cons r rest ih =>
    intro w b
    show rowsWithIds b (r :: (rest ++ w)) = _
    simp only [rowsWithIds, ih w (b + 1), List.cons_append, List.length_cons]
    have : b + 1 + (rest.length : Int) = b + ((rest.length + 1 : Nat) : Int) := by
      push_cast
      ring
    rw [this]

theorem rowsWithIds_getElem? (rows : List InputRow) :
    ∀ (b : Int) (i : Nat) (ri : InputRow), rows[i]? = some ri →
    (rowsWithIds b rows)[i]? = some (b + i, ri.speakers) := by
  induction rows with
  | nil => intro b i ri h; simp at h
  | cons r rest ih =>
    intro b i ri h
    cases i with
    | zero =>
      simp at h
      subst h
      simp [rowsWithIds]
    | succ i =>
      simp only [List.getElem?_cons_succ] at h
      simp only [rowsWithIds, List.getElem?_cons_succ]
      rw [ih (b + 1) i ri h]
      congr 2
      omega

theorem mem_rowsWithIds {r : InputRow} {rows : List InputRow} (h : r ∈ rows) :
    ∀ b : Int, ∃ sid, (sid, r.speakers) ∈ rowsWithIds b rows := by
  induction rows with
  | nil => cases h
  | cons x t ih =>
    intro b
    cases h with
    | head => exact ⟨b, by simp [rowsWithIds]⟩
    | tail _ h' =>
      obtain ⟨sid, hs⟩ := ih h' (b + 1)
      exact ⟨sid, by simp [rowsWithIds, hs]⟩

theorem pair_name_mem {l : List (Int × PyVal)} {sid : Int} {n : List Char}
    (h : (sid, n) ∈ allPairs l) : n ∈ allNames l := by
  rw [allPairs, mem_concatMap] at h
  obtain ⟨p, hp, hn⟩ := h
  rw [entryPairs, List.mem_map] at hn
  obtain ⟨m, hm, he⟩ := hn
  have : m = n := congrArg Prod.snd he
  subst this
  rw [allNames, mem_concatMap]
  exact ⟨p, hp, hm⟩

theorem addSeen_nodup {acc : List (List Char)} (h : acc.Nodup) (n : List Char) :
    (addSeen acc n).Nodup := by
  unfold addSeen
  by_cases hm : n ∈ acc
  · rwa [if_pos hm]
  · rw [if_neg hm]
    simp [List.nodup_append, h, hm]

theorem foldl_addSeen_nodup (l : List (List Char)) :
    ∀ acc : List (List Char), acc.Nodup → (l.foldl addSeen acc).Nodup := by
  induction l with
  | nil => intro acc h; exact h
  | cons n t ih =>
    intro acc h
    exact ih (addSeen acc n) (addSeen_nodup h n)

theorem seenOf_nodup (rows : List InputRow) : (seenOf rows).Nodup :=
  foldl_addSeen_nodup _ [] List.nodup_nil

theorem mkSpRows_mem (l : List (List Char)) :
    ∀ (b : Int) (n : List Char), n ∈ l →
    ∃ srow, srow ∈ mkSpRows b l ∧ srow.name = Cell.ctext n := by
  induction l with
  | nil => intro b n h; cases h
  | cons m t ih =>
    intro b n h
    cases h with
    | head => exact ⟨{ id := b, name := .ctext m }, by simp [mkSpRows], rfl⟩
    | tail _ h' =>
      obtain ⟨srow, hs, hname⟩ := ih (b + 1) n h'
      exact ⟨srow, List.mem_cons_of_mem _ hs, hname⟩

/-- A full import from an empty store, seen whole: sessions are always
inserted; the speaker scan always succeeds leaving `finalSpeakers`; the run
then stands or falls with the association-insert loop on the resolved pending
pairs. -/
theorem run_import_empty_run (rows : List InputRow) :
    run_import rows emptyDB
      = match specAssocLoop { rows := [], nextRowid := 1 } (resolvedPairs rows) with
        | .ok t1 =>
            .ok { sessions := (process_session_data rows emptyDB.sessions).2
                , speakers := finalSpeakers rows
                , assoc := t1 }
        | .error e =>
            .error (e.1,
              { sessions := (process_session_data rows emptyDB.sessions).2
              , speakers := finalSpeakers rows
              , assoc := e.2 }) := by
  have hids : (process_session_data rows emptyDB.sessions).1 = idsFrom 1 rows.length := by
    unfold process_session_data
    rw [processSessionsAux_eq]
    rfl
  have hz : (process_session_data rows emptyDB.sessions).1.zip
      (rows.map (fun r => r.speakers)) = rowsWithIds 1 rows := by
    rw [hids, zip_eq_rowsWithIds]
  have hstate0 : StateOK 1 [] { rows := [], nextId := 1 } emptyDict :=
    ⟨List.nodup_nil, rfl, by simp, fun n => by simp [dictGet?, emptyDict, List.find?]⟩
  obtain ⟨sp1, d1, hscan, hst1⟩ :=
    speakerScan_ok (rowsWithIds 1 rows) 1 [] { rows := [], nextId := 1 } emptyDict hstate0
  obtain ⟨hnd1, hrows1, hnext1, hdict1⟩ := hst1
  have hsp1 : sp1 = finalSpeakers rows := by
    cases sp1 with
    | mk r n =>
      simp only at hrows1 hnext1
      rw [finalSpeakers, hrows1, hnext1]
      rfl
  have hresolve : ∀ q ∈ allPairs (rowsWithIds 1 rows),
      dictGet? d1 q.2 = some (sigmaOf rows q.2) := by
    intro q hq
    obtain ⟨sid, n⟩ := q
    have hn : n ∈ allNames (rowsWithIds 1 rows) := pair_name_mem hq
    have hseen : n ∈ (allNames (rowsWithIds 1 rows)).foldl addSeen [] :=
      (mem_foldl_addSeen _ _ _).2 (Or.inr hn)
    rw [hdict1 n, if_pos hseen]
    rfl
  have hal : assocLoop d1 { rows := [], nextRowid := 1 } (allPairs (rowsWithIds 1 rows))
      = specAssocLoop { rows := [], nextRowid := 1 } (resolvedPairs rows) := by
    rw [resolvedPairs]
    exact assocLoop_eq_spec _ d1 _ (fun n => sigmaOf rows n) hresolve
  have hscan2 : speakerScan emptyDB.speakers emptyDict (rowsWithIds 1 rows)
      = Except.ok (allPairs (rowsWithIds 1 rows), sp1, d1) := hscan
  have hal2 : assocLoop d1 emptyDB.assoc (allPairs (rowsWithIds 1 rows))
      = specAssocLoop { rows := [], nextRowid := 1 } (resolvedPairs rows) := hal
  show run_import rows emptyDB = _
  simp only [run_import]
  rw [hz]
  simp only [process_speaker_data]
  rw [hscan2]
  simp only
  rw [hal2, hsp1]
  cases hres : specAssocLoop { rows := [], nextRowid := 1 } (resolvedPairs rows) with
  | ok t1 => rfl
  | error e => rfl

theorem filter_singleton_of_countEq_one [DecidableEq α] {l : List α} {a : α}
    {p : α → Bool} (hp : ∀ x ∈ l, p x = true ↔ x = a) (hc : countEq a l = 1) :
    l.filter p = [a] := by
  induction l with
  | nil => simp [countEq] at hc
  | cons x t ih =>
    by_cases hxa : x = a
    · subst hxa
      simp [countEq] at hc
      have hnot : x ∉ t := by
        intro hmem
        have := one_le_countEq_of_mem hmem
        omega
      rw [List.filter_cons_of_pos ((hp x (by simp)).2 rfl)]
      have hnil : t.filter p = [] := by
        rw [List.filter_eq_nil_iff]
        intro b hb
        intro hpb
        have hba := (hp b (List.mem_cons_of_mem x hb)).1 hpb
        exact hnot (hba ▸ hb)
      rw [hnil]
    · simp only [countEq, if_neg hxa] at hc
      rw [List.filter_cons_of_neg (by
        intro hpx
        exact hxa ((hp x (by simp)).1 hpx))]
      exact ih (fun b hb => hp b (List.mem_cons_of_mem x hb)) (by omega)

/-! ### Claim C2 (speaker deduplication) -/

/-- C2: in a completed import, a trimmed speaker name appearing in the
speakers fields of two rows `i < j` has exactly one speaker row, and each of
the two sessions carries exactly one association row for it, both referencing
that same speaker id; later occurrences are resolved by lookup and never
re-inserted. -/
theorem c2_speaker_dedup
    (rows : List InputRow) (db1 : DB) (i j : Nat) (ri rj : InputRow) (N : List Char)
    (hok : run_import rows emptyDB = .ok db1)
    (_hij : i < j)
    (hi : rows[i]? = some ri) (hj : rows[j]? = some rj)
    (hNi : N ∈ rowNames ri) (hNj : N ∈ rowNames rj) :
    ∃ spid idI idJ,
      (db1.speakers.rows.filter (fun s => s.name == Cell.ctext N)).map SpeakerRow.id
        = [spid] ∧
      (process_session_data rows emptyDB.sessions).1[i]? = some idI ∧
      (process_session_data rows emptyDB.sessions).1[j]? = some idJ ∧
      db1.assoc.rows.filter
          (fun a => a.session_id == Cell.cint idI && a.speaker_id == Cell.cint spid)
        = [{ session_id := .cint idI, speaker_id := .cint spid }] ∧
      db1.assoc.rows.filter
          (fun a => a.session_id == Cell.cint idJ && a.speaker_id == Cell.cint spid)
        = [{ session_id := .cint idJ, speaker_id := .cint spid }] := by
  have hrun := run_import_empty_run rows
  rw [hok] at hrun
  cases hres : specAssocLoop { rows := [], nextRowid := 1 } (resolvedPairs rows) with
  | error e =>
    rw [hres] at hrun
    cases hrun
  | ok t1 =>
    rw [hres] at hrun
    have hdb : db1 = { sessions := (process_session_data rows emptyDB.sessions).2
                     , speakers := finalSpeakers rows, assoc := t1 } := by
      simpa using hrun
    obtain ⟨hT, _, hNodup⟩ := specAssocLoop_ok (resolvedPairs rows) _ t1 hres
    have hassoc_rows : db1.assoc.rows = resolvedPairs rows := by
      rw [hdb]
      simpa using hT
    have hilen : i < rows.length := getElem?_some_lt hi
    have hjlen : j < rows.length := getElem?_some_lt hj
    have hids : (process_session_data rows emptyDB.sessions).1
        = idsFrom 1 rows.length := by
      unfold process_session_data
      rw [processSessionsAux_eq]
      rfl
    have hpair_mem : ∀ (k : Nat) (rk : InputRow), rows[k]? = some rk →
        N ∈ rowNames rk → ((1 + (k : Int)), N) ∈ allPairs (rowsWithIds 1 rows) := by
      intro k rk hk hNk
      have hkZ : (rowsWithIds 1 rows)[k]? = some ((1 + (k : Int)), rk.speakers) :=
        rowsWithIds_getElem? rows 1 k rk hk
      rw [allPairs, mem_concatMap]
      refine ⟨((1 + (k : Int)), rk.speakers), getElem?_some_mem hkZ, ?_⟩
      rw [entryPairs, List.mem_map]
      refine ⟨N, ?_, rfl⟩
      rw [entryNames]
      by_cases hv : rk.speakers = .vnone
      · rw [rowNames, hv] at hNk
        cases hNk
      · rw [if_neg hv]
        exact hNk
    have hmemI : ((1 + (i : Int)), N) ∈ allPairs (rowsWithIds 1 rows) :=
      hpair_mem i ri hi hNi
    have hmemJ : ((1 + (j : Int)), N) ∈ allPairs (rowsWithIds 1 rows) :=
      hpair_mem j rj hj hNj
    have hNseen : N ∈ seenOf rows := by
      simp only [seenOf]
      rw [mem_foldl_addSeen]
      exact Or.inr (pair_name_mem hmemI)
    have hname_seen : ∀ q ∈ allPairs (rowsWithIds 1 rows), q.2 ∈ seenOf rows := by
      intro q hq
      obtain ⟨sid, n⟩ := q
      simp only [seenOf]
      rw [mem_foldl_addSeen]
      exact Or.inr (pair_name_mem hq)
    have hcount_le : ∀ q : Int × List Char,
        countEq q (allPairs (rowsWithIds 1 rows)) ≤ 1 := by
      intro q
      by_contra hgt
      have h2 : 2 ≤ countEq q (allPairs (rowsWithIds 1 rows)) := by omega
      have hmge := countEq_map_ge
        (fun p => AssocRow.mk (.cint p.1) (.cint (sigmaOf rows p.2)))
        (allPairs (rowsWithIds 1 rows)) q
      have hle1 := countEq_le_one_of_nodup hNodup
        (AssocRow.mk (.cint q.1) (.cint (sigmaOf rows q.2)))
      rw [resolvedPairs] at hle1
      omega
    have hcount : ∀ (k : Nat), ((1 + (k : Int)), N) ∈ allPairs (rowsWithIds 1 rows) →
        countEq ((1 + (k : Int)), N) (allPairs (rowsWithIds 1 rows)) = 1 := by
      intro k hmem
      have := one_le_countEq_of_mem hmem
      have := hcount_le ((1 + (k : Int)), N)
      omega
    have hfilter : ∀ (k : Nat), ((1 + (k : Int)), N) ∈ allPairs (rowsWithIds 1 rows) →
        db1.assoc.rows.filter
            (fun a => a.session_id == Cell.cint (1 + (k : Int))
              && a.speaker_id == Cell.cint (sigmaOf rows N))
          = [{ session_id := .cint (1 + (k : Int))
             , speaker_id := .cint (sigmaOf rows N) }] := by
      intro k hmem
      rw [hassoc_rows]
      simp only [resolvedPairs, filter_of_map]
      have hp : ∀ q ∈ allPairs (rowsWithIds 1 rows),
          ((Cell.cint q.1 == Cell.cint (1 + (k : Int)))
            && (Cell.cint (sigmaOf rows q.2) == Cell.cint (sigmaOf rows N))) = true
            ↔ q = ((1 + (k : Int)), N) := by
        intro q hq
        obtain ⟨sid, n⟩ := q
        have hnseen : n ∈ seenOf rows := hname_seen (sid, n) hq
        simp only [Bool.and_eq_true, beq_iff_eq, Cell.cint.injEq, Prod.mk.injEq]
        constructor
        · rintro ⟨h1, h2⟩
          exact ⟨h1, specIdFrom_inj (seenOf rows) 1 n N hnseen hNseen h2⟩
        · rintro ⟨h1, h2⟩
          exact ⟨h1, by rw [h2]⟩
      rw [filter_singleton_of_countEq_one hp (hcount k hmem)]
      rfl
    refine ⟨sigmaOf rows N, 1 + (i : Int), 1 + (j : Int), ?_, ?_, ?_, ?_, ?_⟩
    · rw [hdb]
      simp only [finalSpeakers]
      rw [mkSpRows_filter_mem (seenOf rows) 1 N hNseen (seenOf_nodup rows)]
      rfl
    · rw [hids]
      exact idsFrom_getElem? rows.length 1 i hilen
    · rw [hids]
      exact idsFrom_getElem? rows.length 1 j hjlen
    · exact hfilter i hmemI
    · exact hfilter j hmemJ

/-! ### Claim C9 (in-row duplicate speaker name aborts the run) -/

/-- C9: if any row's speakers field lists the same trimmed name more than
once, the identical (session id, name) pair is collected twice, the second
association insert violates the composite PRIMARY KEY, and the run aborts
with that constraint violation — while every session row, every speaker, and
exactly the association rows inserted before the violation remain committed
(no rollback). -/
theorem c9_inrow_duplicate_aborts
    (rows : List InputRow)
    (hdup : ∃ r, r ∈ rows ∧ ¬ (rowNames r).Nodup) :
    ∃ db1,
      run_import rows emptyDB = .error (pkViolationMsg, db1) ∧
      db1.sessions.rows.length = rows.length ∧
      (∀ r ∈ rows, ∀ n ∈ rowNames r, ∃ srow, srow ∈ db1.speakers.rows ∧
          srow.name = Cell.ctext n) ∧
      db1.assoc.rows
        = nodupPfxRel []
            ((allPairs (rowsWithIds 1 rows)).map (assocRowOf db1.speakers)) ∧
      db1.assoc.rows.length < (allPairs (rowsWithIds 1 rows)).length := by
  obtain ⟨r, hr, hnd⟩ := hdup
  obtain ⟨n, hn2⟩ := exists_two_le_countEq_of_not_nodup hnd
  have hv : r.speakers ≠ .vnone := by
    intro hveq
    rw [rowNames, hveq] at hnd
    exact hnd List.nodup_nil
  obtain ⟨u, w, rfl⟩ := List.append_of_mem hr
  have hZ : rowsWithIds 1 (u ++ r :: w)
      = rowsWithIds 1 u
        ++ ((1 + (u.length : Int)), r.speakers)
          :: rowsWithIds (1 + (u.length : Int) + 1) w := by
    rw [rowsWithIds_append]
    rfl
  have hAP : allPairs (rowsWithIds 1 (u ++ r :: w))
      = allPairs (rowsWithIds 1 u)
        ++ (entryPairs ((1 + (u.length : Int)), r.speakers)
          ++ allPairs (rowsWithIds (1 + (u.length : Int) + 1) w)) := by
    rw [hZ, allPairs, concatMap_append]
    rfl
  have hmid : countEq ((1 + (u.length : Int)), n)
      (entryPairs ((1 + (u.length : Int)), r.speakers)) = countEq n (rowNames r) := by
    rw [entryPairs, entryNames]
    simp only [if_neg hv]
    exact countEq_map_pair _ _ _
  have h2AP : 2 ≤ countEq ((1 + (u.length : Int)), n)
      (allPairs (rowsWithIds 1 (u ++ r :: w))) := by
    rw [hAP, countEq_append, countEq_append, hmid]
    omega
  have hnotnodup : ¬ (resolvedPairs (u ++ r :: w)).Nodup := by
    intro hnod
    have hge := countEq_map_ge
      (fun p => AssocRow.mk (.cint p.1) (.cint (sigmaOf (u ++ r :: w) p.2)))
      (allPairs (rowsWithIds 1 (u ++ r :: w))) ((1 + (u.length : Int)), n)
    dsimp only at hge
    have hle := countEq_le_one_of_nodup hnod
      (AssocRow.mk (.cint (1 + (u.length : Int))) (.cint (sigmaOf (u ++ r :: w) n)))
    rw [resolvedPairs] at hle
    omega
  have hbad : ¬ ((∀ a ∈ resolvedPairs (u ++ r :: w),
      a ∉ ({ rows := [], nextRowid := 1 } : AssocTable).rows)
      ∧ (resolvedPairs (u ++ r :: w)).Nodup) := by
    rintro ⟨_, hnod⟩
    exact hnotnodup hnod
  obtain ⟨t1, herr, hrows1, hlen1⟩ :=
    specAssocLoop_error_of_dup (resolvedPairs (u ++ r :: w)) ⟨[], 1⟩ hbad
  dsimp only at hrows1 hlen1
  have hrun := run_import_empty_run (u ++ r :: w)
  rw [herr] at hrun
  have hname_seen : ∀ r' ∈ u ++ r :: w, ∀ n' ∈ rowNames r',
      n' ∈ seenOf (u ++ r :: w) := by
    intro r' hr' n' hn'
    obtain ⟨sid, hsidmem⟩ := mem_rowsWithIds hr' 1
    have hn'names : n' ∈ allNames (rowsWithIds 1 (u ++ r :: w)) := by
      rw [allNames, mem_concatMap]
      refine ⟨(sid, r'.speakers), hsidmem, ?_⟩
      rw [entryNames]
      by_cases hv2 : r'.speakers = .vnone
      · rw [rowNames, hv2] at hn'
        cases hn'
      · rw [if_neg hv2]
        exact hn'
    simp only [seenOf]
    rw [mem_foldl_addSeen]
    exact Or.inr hn'names
  have hmapeq : (allPairs (rowsWithIds 1 (u ++ r :: w))).map
        (assocRowOf (finalSpeakers (u ++ r :: w)))
      = resolvedPairs (u ++ r :: w) := by
    rw [resolvedPairs]
    apply List.map_congr_left
    intro p hp
    obtain ⟨sid, nn⟩ := p
    have hseen : nn ∈ seenOf (u ++ r :: w) := by
      simp only [seenOf]
      rw [mem_foldl_addSeen]
      exact Or.inr (pair_name_mem hp)
    have hid : speakerIdOf (finalSpeakers (u ++ r :: w)) nn
        = sigmaOf (u ++ r :: w) nn := by
      simp only [speakerIdOf, finalSpeakers]
      rw [mkSpRows_filter_mem (seenOf (u ++ r :: w)) 1 nn hseen
        (seenOf_nodup (u ++ r :: w))]
      rfl
    rw [assocRowOf, hid]
  refine ⟨{ sessions := (process_session_data (u ++ r :: w) emptyDB.sessions).2
          , speakers := finalSpeakers (u ++ r :: w), assoc := t1 }, ?_, ?_, ?_, ?_, ?_⟩
  · exact hrun
  · show (process_session_data (u ++ r :: w) emptyDB.sessions).2.rows.length = _
    unfold process_session_data
    rw [processSessionsAux_eq]
    simp [newSessionRows_length, emptyDB]
  · intro r' hr' n' hn'
    obtain ⟨srow, hs, hname⟩ :=
      mkSpRows_mem (seenOf (u ++ r :: w)) 1 n' (hname_seen r' hr' n' hn')
    exact ⟨srow, by simpa [finalSpeakers] using hs, hname⟩
  · show t1.rows = nodupPfxRel []
        ((allPairs (rowsWithIds 1 (u ++ r :: w))).map
          (assocRowOf (finalSpeakers (u ++ r :: w))))
    rw [hmapeq]
    simpa using hrows1
  · show t1.rows.length < (allPairs (rowsWithIds 1 (u ++ r :: w))).length
    have ht1 : t1.rows = nodupPfxRel [] (resolvedPairs (u ++ r :: w)) := by
      simpa using hrows1
    rw [ht1]
    have hml : (resolvedPairs (u ++ r :: w)).length
        = (allPairs (rowsWithIds 1 (u ++ r :: w))).length := by
      rw [resolvedPairs, List.length_map]
    omega

/-- Witness for C2 at the concrete two-row import. -/
theorem c2_witness :
    ∃ spid idI idJ,
      (c2DB.speakers.rows.filter
          (fun s => s.name == Cell.ctext (strChars "Ada Lovelace"))).map SpeakerRow.id
        = [spid] ∧
      (process_session_data c2Rows emptyDB.sessions).1[(0 : Nat)]? = some idI ∧
      (process_session_data c2Rows emptyDB.sessions).1[(1 : Nat)]? = some idJ ∧
      c2DB.assoc.rows.filter
          (fun a => a.session_id == Cell.cint idI && a.speaker_id == Cell.cint spid)
        = [{ session_id := .cint idI, speaker_id := .cint spid }] ∧
      c2DB.assoc.rows.filter
          (fun a => a.session_id == Cell.cint idJ && a.speaker_id == Cell.cint spid)
        = [{ session_id := .cint idJ, speaker_id := .cint spid }] :=
  c2_speaker_dedup c2Rows c2DB 0 1 c2RowA c2RowB (strChars "Ada Lovelace")
    rfl (by omega) (by decide) (by decide) (by decide) (by decide)

/-- Witness for C9 at the concrete one-row import with `"Ada; Ada"`. -/
theorem c9_witness :
    ∃ db1,
      run_import c9Rows emptyDB = .error (pkViolationMsg, db1) ∧
      db1.sessions.rows.length = c9Rows.length ∧
      (∀ r ∈ c9Rows, ∀ n ∈ rowNames r, ∃ srow, srow ∈ db1.speakers.rows ∧
          srow.name = Cell.ctext n) ∧
      db1.assoc.rows
        = nodupPfxRel []
            ((allPairs (rowsWithIds 1 c9Rows)).map (assocRowOf db1.speakers)) ∧
      db1.assoc.rows.length < (allPairs (rowsWithIds 1 c9Rows)).length :=
  c9_inrow_duplicate_aborts c9Rows ⟨c9Row, by decide, by decide⟩

end Whova
